import Mathlib

/-!
Triple-redundant flash store (`Core/Src/flash.c`)

A shallow embedding of `GetSector`, `Flash_Write_Data`, `Write_Flash`,
`Flash_Read_Data`, `Check_Redundancy` and `Read_Flash`, together with a model of
the memory controller they drive, and the properties of the store proved or
refuted on that embedding.

Conventions.
* `uint32_t` and `uint16_t` values are natural numbers; every place where the C
  arithmetic can wrap is reduced explicitly with `u32` or `u16`.
* A RAM buffer reached through a `uint8_t *` is a function from the index
  relative to the pointer to the byte stored there, so that a store beyond the
  size the caller had in mind is still visible.
* The flash array is a function from absolute addresses to bytes.
-/

namespace Flash

/-! ## Machine integers -/

/-- Reduction of a natural number to `uint32_t`. -/
def u32 (x : Nat) : Nat := x % 2 ^ 32

/-- Reduction of a natural number to `uint16_t`. -/
def u16 (x : Nat) : Nat := x % 2 ^ 16

/-- Size in bytes of a `uint8_t *` on the target (STM32F4, Cortex-M4, ILP32):
the value of `sizeof(RxBuf1)` in `Check_Redundancy`, whose operand is a pointer
parameter. -/
def SIZEOF_PTR : Nat := 4

/-! ## `GetSector` -/

/-- Embedding of `GetSector` (flash.c, lines 36-137): the chain of range tests,
with the strict upper comparisons of the source, and the initial value `0` of
`sector` returned when no test matches. -/
def GetSector (Address : Nat) : Nat :=
  if Address < 0x08003FFF ∧ Address ≥ 0x08000000 then 0
  else if Address < 0x08007FFF ∧ Address ≥ 0x08004000 then 1
  else if Address < 0x0800BFFF ∧ Address ≥ 0x08008000 then 2
  else if Address < 0x0800FFFF ∧ Address ≥ 0x0800C000 then 3
  else if Address < 0x0801FFFF ∧ Address ≥ 0x08010000 then 4
  else if Address < 0x0803FFFF ∧ Address ≥ 0x08020000 then 5
  else if Address < 0x0805FFFF ∧ Address ≥ 0x08040000 then 6
  else if Address < 0x0807FFFF ∧ Address ≥ 0x08060000 then 7
  else 0

/-- The layout documented in the header comment of `GetSector` (flash.c, lines
25-28): sectors 0 to 3 of 16 KB each from `0x08000000`, sector 4 of 64 KB,
sectors 5 to 7 of 128 KB each. Returns the sector that contains the address,
first byte to last byte inclusive, or `none` outside the flash. -/
def sectorOf (x : Nat) : Option Nat :=
  if 0x08000000 ≤ x ∧ x ≤ 0x08003FFF then some 0
  else if 0x08004000 ≤ x ∧ x ≤ 0x08007FFF then some 1
  else if 0x08008000 ≤ x ∧ x ≤ 0x0800BFFF then some 2
  else if 0x0800C000 ≤ x ∧ x ≤ 0x0800FFFF then some 3
  else if 0x08010000 ≤ x ∧ x ≤ 0x0801FFFF then some 4
  else if 0x08020000 ≤ x ∧ x ≤ 0x0803FFFF then some 5
  else if 0x08040000 ≤ x ∧ x ≤ 0x0805FFFF then some 6
  else if 0x08060000 ≤ x ∧ x ≤ 0x0807FFFF then some 7
  else none

/-- The redundant zone tested by `Write_Flash` and `Read_Flash`
(flash.c, lines 263 and 355). -/
def inZone (a : Nat) : Prop := a ≥ 0x08000000 ∧ a ≤ 0x0800BFFF

instance (a : Nat) : Decidable (inZone a) := by unfold inZone; infer_instance

/-! ## The memory controller -/

/-- A request received by the controller. -/
inductive HalOp where
  | unlock : HalOp
  | lock : HalOp
  | erase (Sector NbSectors : Nat) : HalOp
  | program (Address Data : Nat) : HalOp
  deriving DecidableEq, Repr

/-- The status `HAL_OK`. -/
def HAL_OK : Nat := 0

/-- State of the flash and of its controller.
* `mem` is the content of the flash array;
* `locked` is the lock of the control register;
* `faults` is the script of the outcomes of the coming erase and program
  operations, one error code per operation, `0` for success; an exhausted
  script means success. A failed operation whose error code is `0` has no
  script, and nothing below relies on the code of a failure being other
  than `0`, except where a concrete script is run;
* `err` is the error code reported by `HAL_FLASH_GetError`;
* `log` is the sequence of requests received so far, oldest first;
* `calls` is a ghost record of the invocations of `Flash_Write_Data`
  (address, data, byte count), oldest first. -/
structure Ctrl where
  mem : Nat → Nat
  locked : Bool
  faults : List Nat
  err : Nat
  log : List HalOp
  calls : List (Nat × List Nat × Nat)

/-- Modelled from the spec: `HAL_FLASH_Unlock` of the vendor driver, which is
not part of the sources; it gives the firmware ownership of the controller. -/
def HAL_FLASH_Unlock (s : Ctrl) : Ctrl :=
  { s with locked := false, log := s.log ++ [HalOp.unlock] }

/-- Modelled from the spec: `HAL_FLASH_Lock` of the vendor driver, which is not
part of the sources; it releases the controller. -/
def HAL_FLASH_Lock (s : Ctrl) : Ctrl :=
  { s with locked := true, log := s.log ++ [HalOp.lock] }

/-- Modelled from the spec: `HAL_FLASH_GetError` of the vendor driver, the
native error code of the controller. -/
def HAL_FLASH_GetError (s : Ctrl) : Nat := s.err

/-- The cells wiped by an erase request: those of the sectors `k` of the
documented layout with `Sector ≤ k < Sector + NbSectors`, the sum being a
`uint32_t`. -/
def erasedBy (Sector NbSectors x : Nat) : Bool :=
  match sectorOf x with
  | some k => decide (Sector ≤ k ∧ k < u32 (Sector + NbSectors))
  | none => false

/-- Modelled from the spec: `HAL_FLASHEx_Erase` of the vendor driver, which is
not part of the sources ("erases every region in the inclusive range as one
hardware operation; any failure aborts"). A successful erase puts every cell of
the requested sectors in the erased state `0xFF`; a failed one records the
error code and leaves the array as it was. Returns the status and the new
state. -/
def HAL_FLASHEx_Erase (s : Ctrl) (Sector NbSectors : Nat) : Nat × Ctrl :=
  let code := s.faults.headD HAL_OK
  let s1 := { s with faults := s.faults.tail,
                     log := s.log ++ [HalOp.erase Sector NbSectors] }
  if code = HAL_OK then
    (HAL_OK, { s1 with mem := fun x => if erasedBy Sector NbSectors x then 0xFF else s.mem x })
  else
    (1, { s1 with err := code })

/-- Modelled from the spec: `HAL_FLASH_Program` of the vendor driver with
`FLASH_TYPEPROGRAM_BYTE`, which is not part of the sources ("programming only
transitions bits from the erased state toward the target value"). A successful
program clears, in the addressed cell, the bits that are clear in the low byte
of `Data`; a failed one records the error code and leaves the cell as it was.
Returns the status and the new state. -/
def HAL_FLASH_Program (s : Ctrl) (Address Data : Nat) : Nat × Ctrl :=
  let code := s.faults.headD HAL_OK
  let s1 := { s with faults := s.faults.tail,
                     log := s.log ++ [HalOp.program Address Data] }
  if code = HAL_OK then
    (HAL_OK, { s1 with mem := fun x => if x = Address then s.mem x &&& (Data % 256) else s.mem x })
  else
    (1, { s1 with err := code })

/-! ## `Flash_Write_Data` and `Write_Flash` -/

/-- The `while (sofar < numberofbytes)` loop of `Flash_Write_Data` (flash.c,
lines 227-239). The first argument is `numberofbytes - sofar`, the number of
iterations left. Returns `none` when the loop ran to its end, and `some e` when
a program failed and the function returned `e` from inside the loop. -/
def programLoop : Nat → Ctrl → Nat → List Nat → Nat → Option Nat × Ctrl
  | 0, s, _, _, _ => (none, s)
  | k + 1, s, StartSectorAddress, Data, sofar =>
    let r := HAL_FLASH_Program s StartSectorAddress (Data.getD sofar 0)
    if r.1 = HAL_OK then
      programLoop k r.2 (u32 (StartSectorAddress + 1)) Data (sofar + 1)
    else
      (some (HAL_FLASH_GetError r.2), r.2)

/-- The erase request computed by `Flash_Write_Data` (flash.c, lines 204-212):
`(Sector, NbSectors)`. -/
def eraseRequest (StartSectorAddress numberofbytes : Nat) : Nat × Nat :=
  let StartSector := GetSector StartSectorAddress
  let EndSectorAddress := u32 (StartSectorAddress + numberofbytes)
  let EndSector := GetSector EndSectorAddress
  (StartSector, u32 (u32 (EndSector + 2 ^ 32 - StartSector) + 1))

/-- Embedding of `Flash_Write_Data` (flash.c, lines 187-246). Returns the
`uint32_t` result and the new state. The two error returns leave the function
before `HAL_FLASH_Lock`, as in the source. -/
def Flash_Write_Data (s : Ctrl) (StartSectorAddress : Nat) (Data : List Nat)
    (numberofbytes : Nat) : Nat × Ctrl :=
  let s0 := { s with calls := s.calls ++ [(StartSectorAddress, Data, numberofbytes)] }
  let s1 := HAL_FLASH_Unlock s0
  let req := eraseRequest StartSectorAddress numberofbytes
  let r := HAL_FLASHEx_Erase s1 req.1 req.2
  if r.1 ≠ HAL_OK then
    (HAL_FLASH_GetError r.2, r.2)
  else
    let p := programLoop numberofbytes r.2 StartSectorAddress Data 0
    match p.1 with
    | some e => (e, p.2)
    | none => (0, HAL_FLASH_Lock p.2)

/-- Embedding of `Write_Flash` (flash.c, lines 262-271). The results of the
calls to `Flash_Write_Data` are discarded, as in the source. -/
def Write_Flash (s : Ctrl) (StartSectorAddress : Nat) (Data : List Nat)
    (numberofbytes : Nat) : Ctrl :=
  if StartSectorAddress ≥ 0x08000000 ∧ StartSectorAddress ≤ 0x0800BFFF then
    let s1 := (Flash_Write_Data s StartSectorAddress Data numberofbytes).2
    let s2 := (Flash_Write_Data s1 (StartSectorAddress + 0x4000) Data numberofbytes).2
    (Flash_Write_Data s2 (StartSectorAddress + 0x8000) Data numberofbytes).2
  else
    (Flash_Write_Data s StartSectorAddress Data numberofbytes).2

/-! ## `Flash_Read_Data`, `Check_Redundancy` and `Read_Flash` -/

/-- A RAM buffer seen through a `uint8_t *`: index relative to the pointer to the
byte stored there. -/
abbrev Buf := Nat → Nat

/-- The `while (1)` loop of `Flash_Read_Data` (flash.c, lines 288-301): store one
byte, advance, decrement the `uint16_t` counter, leave when it is zero. The
first argument is fuel; `idx` is the distance of `RxBuf` from its initial
value. -/
def readLoop : Nat → (Nat → Nat) → Nat → Nat → Nat → Buf → Buf
  | 0, _, _, _, _, RxBuf => RxBuf
  | fuel + 1, mem, StartSectorAddress, idx, numberofbytes, RxBuf =>
    let RxBuf1 : Buf := fun i => if i = idx then mem StartSectorAddress else RxBuf i
    let numberofbytes1 := u16 (numberofbytes + 65535)
    if numberofbytes1 = 0 then RxBuf1
    else readLoop fuel mem (u32 (StartSectorAddress + 1)) (idx + 1) numberofbytes1 RxBuf1

/-- Embedding of `Flash_Read_Data` (flash.c, lines 286-302). The counter takes at
most `65536` values before it reaches zero, so `65536` units of fuel are always
enough. -/
def Flash_Read_Data (mem : Nat → Nat) (StartSectorAddress : Nat) (RxBuf : Buf)
    (numberofbytes : Nat) : Buf :=
  readLoop 65536 mem StartSectorAddress 0 numberofbytes RxBuf

/-- Embedding of `Check_Redundancy` (flash.c, lines 323-337). Every
`sizeof(RxBuf…)` of the source has a pointer for operand. Returns the four
buffers `(RxBuf1, RxBuf2, RxBuf3, RxDef)`. -/
def Check_Redundancy (mem : Nat → Nat) (Address : Nat) (RxBuf1 RxBuf2 RxBuf3 RxDef : Buf) :
    Buf × Buf × Buf × Buf :=
  let b1 := Flash_Read_Data mem Address RxBuf1 SIZEOF_PTR
  let b2 := Flash_Read_Data mem (u32 (Address + 0x4000)) RxBuf2 SIZEOF_PTR
  let b3 := Flash_Read_Data mem (u32 (Address + 0x8000)) RxBuf3 SIZEOF_PTR
  if b1 0 = b2 0 ∨ b1 0 = b3 0 then
    (b1, b2, b3, Flash_Read_Data mem Address RxDef SIZEOF_PTR)
  else if b2 0 = b3 0 then
    (b1, b2, b3, Flash_Read_Data mem (u32 (Address + 0x4000)) RxDef SIZEOF_PTR)
  else
    (b1, b2, b3, fun i => if i = 0 then b1 0 else RxDef i)

/-- `Check_Redundancy` (flash.c, lines 323-337) called with one and the same
pointer for `RxBuf1`, `RxBuf2` and `RxBuf3`: the three reads go to the same
storage, each over the one before, and the three leading bytes that are then
compared are one byte. Returns the shared buffer and `RxDef`. -/
def Check_Redundancy_aliased (mem : Nat → Nat) (Address : Nat) (RxBuf123 RxDef : Buf) :
    Buf × Buf :=
  let b1 := Flash_Read_Data mem Address RxBuf123 SIZEOF_PTR
  let b2 := Flash_Read_Data mem (u32 (Address + 0x4000)) b1 SIZEOF_PTR
  let b3 := Flash_Read_Data mem (u32 (Address + 0x8000)) b2 SIZEOF_PTR
  if b3 0 = b3 0 ∨ b3 0 = b3 0 then
    (b3, Flash_Read_Data mem Address RxDef SIZEOF_PTR)
  else if b3 0 = b3 0 then
    (b3, Flash_Read_Data mem (u32 (Address + 0x4000)) RxDef SIZEOF_PTR)
  else
    (b3, fun i => if i = 0 then b3 0 else RxDef i)

/-- Embedding of `Read_Flash` (flash.c, lines 354-362): the content of `RxBuf`
after the call. The three local arrays `lect1`, `lect2`, `lect3` are declared with
`numberofbytes` elements each. With `numberofbytes ≥ 1` they are three separate
pieces of storage; they start with unspecified content, taken here as zeros, and
their first byte is stored before it is read. With `numberofbytes = 0` they take
no room and begin at one and the same address, so that `Check_Redundancy` receives
the same pointer three times. -/
def Read_Flash (s : Ctrl) (StartSectorAddress : Nat) (RxBuf : Buf) (numberofbytes : Nat) : Buf :=
  if StartSectorAddress ≥ 0x08000000 ∧ StartSectorAddress ≤ 0x0800BFFF then
    let lect : Buf := fun _ => 0
    if numberofbytes = 0 then
      (Check_Redundancy_aliased s.mem StartSectorAddress lect RxBuf).2
    else
      (Check_Redundancy s.mem StartSectorAddress lect lect lect RxBuf).2.2.2
  else
    Flash_Read_Data s.mem StartSectorAddress RxBuf numberofbytes

/-! ## States used as concrete inputs -/

/-- A controller at rest over a fully erased flash: locked, no fault scripted,
nothing requested yet. -/
def blank : Ctrl := ⟨fun _ => 0xFF, true, [], 0, [], []⟩

/-- Silent corruption of one stored byte. -/
def corrupt (s : Ctrl) (Address byte : Nat) : Ctrl :=
  { s with mem := fun x => if x = Address then byte else s.mem x }

/-- Recognises the erase requests of a request log. -/
def isErase : HalOp → Bool
  | HalOp.erase _ _ => true
  | _ => false

/-- A controller at rest over a fully erased flash, with a script of outcomes for
the coming erase and program operations. -/
def scripted (faults : List Nat) : Ctrl := { blank with faults := faults }

/-- The value that `Write_Flash` hands back to its caller. The function is declared
`void` (flash.c, line 262) and drops the three results of `Flash_Write_Data`. -/
def Write_Flash_value (_s : Ctrl) (_StartSectorAddress : Nat) (_Data : List Nat)
    (_numberofbytes : Nat) : Unit := ()

/-! ## Flash content after successful controller operations -/

/-- Flash content after a successful erase of the request `(Sector, NbSectors)`. -/
def erasedMem (mem : Nat → Nat) (Sector NbSectors : Nat) : Nat → Nat :=
  fun x => if erasedBy Sector NbSectors x then 0xFF else mem x

/-- Flash content after `k` successful byte programs of `Data[sofar..]` from
address `a` on. -/
def programmedMem (mem : Nat → Nat) (a : Nat) (Data : List Nat) (sofar k : Nat) : Nat → Nat :=
  fun x => if a ≤ x ∧ x < a + k then mem x &&& (Data.getD (sofar + (x - a)) 0 % 256) else mem x

/-- The `k`-th range test of `GetSector` (`k` from 0 to 7), as the pair `(lo, hi)`
of the test `Address < hi && Address >= lo`. -/
def window (k : Nat) : Nat × Nat :=
  match k with
  | 0 => (0x08000000, 0x08003FFF)
  | 1 => (0x08004000, 0x08007FFF)
  | 2 => (0x08008000, 0x0800BFFF)
  | 3 => (0x0800C000, 0x0800FFFF)
  | 4 => (0x08010000, 0x0801FFFF)
  | 5 => (0x08020000, 0x0803FFFF)
  | 6 => (0x08040000, 0x0805FFFF)
  | _ => (0x08060000, 0x0807FFFF)

/-! ## Requests and states of a call under controller faults -/

/-- The program requests of the first `m` iterations of the loop of
`Flash_Write_Data` entered at address `a` with index `sofar`. -/
def programRequests (a : Nat) (Data : List Nat) (sofar m : Nat) : List HalOp :=
  (List.range m).map (fun i => HalOp.program (u32 (a + i)) (Data.getD (sofar + i) 0))

/-- The state in which `Flash_Write_Data` enters its loop of byte programs. -/
def afterErase (s : Ctrl) (a : Nat) (Data : List Nat) (n : Nat) : Ctrl :=
  (HAL_FLASHEx_Erase (HAL_FLASH_Unlock { s with calls := s.calls ++ [(a, Data, n)] })
    (eraseRequest a n).1 (eraseRequest a n).2).2

/-! ## The camera payload (`Core/Src/payload_camera.c`) -/

/-- Conversion of a `uint32_t` value to `int` on the target (32-bit two's
complement; values from `2^31` on are implementation-defined in C and wrap with
GCC). -/
def toInt (x : Nat) : Int :=
  if x % 2 ^ 32 < 2 ^ 31 then ((x % 2 ^ 32 : Nat) : Int) else ((x % 2 ^ 32 : Nat) : Int) - 2 ^ 32

/-- Embedding of `min` (payload_camera.c, lines 138-141), on `int`. -/
def min (x y : Int) : Int := if x < y then x else y

/-- The global `bSize` (payload_camera.c, line 18). -/
def bSize : Nat := 128

/-- Embedding of `readResponse` (payload_camera.c, lines 21-42): the reception
itself fills `dataBuffer`, which the callers below receive as an argument; the
function returns `expLength` whatever was received. -/
def readResponse (expLength : Nat) : Nat := expLength

/-- Embedding of `runCommand` (payload_camera.c, lines 44-79) as a function of the
content of `dataBuffer` after the reception: the checks on the length and on the
four header bytes. -/
def runCommand (dataBuffer : Buf) (command expLength : Nat) : Bool :=
  if readResponse expLength ≠ expLength then false
  else if dataBuffer 0 ≠ 0x76 ∨ dataBuffer 1 ≠ 0x0 ∨ dataBuffer 2 ≠ command ∨ dataBuffer 3 ≠ 0x0
  then false
  else true

/-- Embedding of `getFrameLength` (payload_camera.c, lines 81-95): the value of the
global `frameLength` when the function returns, `none` when the command fails and
the function stays in `while (1)`. -/
def getFrameLength (dataBuffer : Buf) : Option Nat :=
  if ¬ runCommand dataBuffer 0x34 9 = true then none
  else
    let frameLength := dataBuffer 5
    let frameLength := u32 (frameLength <<< 8)
    let frameLength := frameLength ||| dataBuffer 6
    let frameLength := u32 (frameLength <<< 8)
    let frameLength := frameLength ||| dataBuffer 7
    let frameLength := u32 (frameLength <<< 8)
    let frameLength := frameLength ||| dataBuffer 8
    some frameLength

/-- The globals `frameLength` and `framePointer`, the local array `dataVect` of
`retrieveImage`, and a ghost record of the iterations of its loop: for each one
the values of `frameLength` and `framePointer` on entry and the value of
`toRead`. -/
structure Cam where
  frameLength : Nat
  framePointer : Nat
  dataVect : Buf
  trace : List (Nat × Nat × Int)

/-- One iteration of the `while (frameLength > 0)` loop of `retrieveImage`
(payload_camera.c, lines 109-132); `dataBuffer` is what the camera sent in this
iteration. The copy loop stores `dataBuffer[i]` at `dataVect[framePointer+i]` for
`0 ≤ i < toRead`; `framePointer` is a `uint16_t` and `frameLength` a
`uint32_t`. -/
def retrieveStep (dataBuffer : Buf) (c : Cam) : Cam :=
  let toRead : Int := min (toInt bSize) (toInt c.frameLength)
  { frameLength := (((c.frameLength : Int) - toRead) % 2 ^ 32).toNat
    framePointer := (((c.framePointer : Int) + toRead) % 2 ^ 16).toNat
    dataVect := fun j =>
      if c.framePointer ≤ j ∧ (j : Int) < (c.framePointer : Int) + toRead then
        dataBuffer (j - c.framePointer)
      else c.dataVect j
    trace := c.trace ++ [(c.frameLength, c.framePointer, toRead)] }

/-- The `while (frameLength > 0)` loop of `retrieveImage`, with fuel; `rx k` is the
content of `dataBuffer` in the iteration number `k`. Returns `none` when the fuel
runs out before the loop is left. -/
def retrieveLoop : Nat → (Nat → Buf) → Cam → Option Cam
  | 0, _, c => if c.frameLength > 0 then none else some c
  | fuel + 1, rx, c =>
    if c.frameLength > 0 then retrieveLoop fuel rx (retrieveStep (rx c.trace.length) c)
    else some c

/-- Embedding of `retrieveImage` (payload_camera.c, lines 97-136). `dataVect` is an
array of `frameLength` bytes set to zero; `sizeof(dataVect)` is that size, passed
to the `uint16_t` parameter of `Flash_Write_Data`. `PHOTO_ADDR` is defined in a
header that is not part of the sources and is a parameter. Every iteration
consumes at least one byte or ends the loop, so the initial `frameLength` is
enough fuel. Returns the final camera state and the result of
`Flash_Write_Data`. -/
def retrieveImage (rx : Nat → Buf) (PHOTO_ADDR frameLength framePointer : Nat) (s : Ctrl) :
    Option (Cam × Nat × Ctrl) :=
  let size := frameLength
  match retrieveLoop frameLength rx ⟨frameLength, framePointer, fun _ => 0, []⟩ with
  | none => none
  | some c => some (c, Flash_Write_Data s PHOTO_ADDR ((List.range size).map c.dataVect) (u16 size))

/-! ## The telecommands (`Core/Src/telecommands.c`) -/

/-- Embedding of the case `SET_SF` of `process_telecommand` (telecommands.c, lines
72-81). `SF0` is the indeterminate content of the local `SF`, declared without
initial value; each of the blocks `{uint8_t SF = …;}` declares a variable of its
own, which hides the outer `SF` and ends with the block. `SF_ADDR` is defined in
a header that is not part of the sources and is a parameter. -/
def process_telecommand_SET_SF (s : Ctrl) (SF_ADDR info SF0 : Nat) : Ctrl :=
  let SF : Nat := SF0
  let SF : Nat :=
    if info = 0 then 7
    else if info = 1 then let _SF : Nat := 8; SF
    else if info = 2 then let _SF : Nat := 9; SF
    else if info = 3 then let _SF : Nat := 10; SF
    else if info = 4 then let _SF : Nat := 11; SF
    else if info = 5 then let _SF : Nat := 12; SF
    else SF
  Write_Flash s SF_ADDR [SF] 1

/-- The number of bytes that an iteration of the loop of `retrieveImage` takes
when `frameLength` is below `2^31`. -/
def chunk (frameLength : Nat) : Nat := if 128 < frameLength then 128 else frameLength

/-! ## Lemmas on machine integers and on the read loop -/

theorem land_ff (d : Nat) : 0xFF &&& (d % 256) = d % 256 := by
  have h := Nat.and_pow_two_sub_one_eq_mod (d % 256) 8
  rw [Nat.and_comm] at h
  simpa using h

theorem readLoop_succ (f : Nat) (mem : Nat → Nat) (a idx n : Nat) (buf : Buf) :
    readLoop (f + 1) mem a idx n buf
      = if u16 (n + 65535) = 0 then (fun i => if i = idx then mem a else buf i)
        else readLoop f mem (u32 (a + 1)) (idx + 1) (u16 (n + 65535))
          (fun i => if i = idx then mem a else buf i) := rfl

theorem u32_succ_add (a k : Nat) : u32 (u32 (a + 1) + k) = u32 (a + (k + 1)) := by
  unfold u32; omega

theorem u32_lt (a : Nat) : u32 a < 2 ^ 32 := by unfold u32; omega

theorem u32_of_lt {a : Nat} (h : a < 2 ^ 32) : u32 a = a := by unfold u32; omega

theorem readLoop_spec (mem : Nat → Nat) :
    ∀ (c fuel a idx : Nat) (buf : Buf), 1 ≤ c → c ≤ 65536 → c ≤ fuel → a < 2 ^ 32 →
      readLoop fuel mem a idx (c % 65536) buf
        = fun i => if idx ≤ i ∧ i < idx + c then mem (u32 (a + (i - idx))) else buf i := by
  intro c
  induction c with
  | zero => intro fuel a idx buf h; omega
  | succ c ih =>
    intro fuel a idx buf _ hc hf ha
    obtain ⟨f, rfl⟩ : ∃ f, fuel = f + 1 := ⟨fuel - 1, by omega⟩
    rw [readLoop_succ]
    have hn : u16 ((c + 1) % 65536 + 65535) = c % 65536 := by unfold u16; omega
    rw [hn]
    by_cases hc0 : c = 0
    · subst hc0
      funext i
      by_cases hi : i = idx
      · subst hi; simp [u32_of_lt ha]
      · have : ¬ (idx ≤ i ∧ i < idx + (0 + 1)) := by omega
        simp [hi, this]
    · have hmod : c % 65536 ≠ 0 := by omega
      rw [if_neg hmod, ih f _ _ _ (by omega) (by omega) (by omega) (u32_lt _)]
      funext i
      by_cases hi : i = idx
      · subst hi
        have h1 : ¬ (i + 1 ≤ i ∧ i < i + 1 + c) := by omega
        have h2 : (i ≤ i ∧ i < i + (c + 1)) := by omega
        simp [h1, h2, u32_of_lt ha]
      · by_cases hlt : idx + 1 ≤ i ∧ i < idx + 1 + c
        · have h2 : (idx ≤ i ∧ i < idx + (c + 1)) := by omega
          have h3 : i - (idx + 1) + 1 = i - idx := by omega
          rw [if_pos hlt, if_pos h2, u32_succ_add, h3]
        · have h2 : ¬ (idx ≤ i ∧ i < idx + (c + 1)) := by omega
          rw [if_neg hlt, if_neg h2]; simp [hi]

theorem Flash_Read_Data_pos (mem : Nat → Nat) (a n : Nat) (buf : Buf)
    (ha : a < 2 ^ 32) (h1 : 1 ≤ n) (h2 : n ≤ 65535) :
    Flash_Read_Data mem a buf n = fun i => if i < n then mem (u32 (a + i)) else buf i := by
  unfold Flash_Read_Data
  have h := readLoop_spec mem n 65536 a 0 buf h1 (by omega) (by omega) ha
  rw [Nat.mod_eq_of_lt (by omega)] at h
  rw [h]; funext i; simp

theorem Flash_Read_Data_zero (mem : Nat → Nat) (a : Nat) (buf : Buf) (ha : a < 2 ^ 32) :
    Flash_Read_Data mem a buf 0 = fun i => if i < 65536 then mem (u32 (a + i)) else buf i := by
  unfold Flash_Read_Data
  have h := readLoop_spec mem 65536 65536 a 0 buf (by omega) (by omega) (by omega) ha
  rw [Nat.mod_self] at h
  rw [h]; funext i; simp

/-! ## Lemmas on fault-free writes -/

theorem HAL_FLASH_Program_ok (s : Ctrl) (a d : Nat) (h : s.faults = []) :
    (HAL_FLASH_Program s a d).1 = HAL_OK ∧ (HAL_FLASH_Program s a d).2.faults = [] ∧
    (HAL_FLASH_Program s a d).2.mem = fun x => if x = a then s.mem x &&& (d % 256) else s.mem x := by
  simp [HAL_FLASH_Program, h, HAL_OK]

theorem HAL_FLASHEx_Erase_ok (s : Ctrl) (S N : Nat) (h : s.faults = []) :
    (HAL_FLASHEx_Erase s S N).1 = HAL_OK ∧ (HAL_FLASHEx_Erase s S N).2.faults = [] ∧
    (HAL_FLASHEx_Erase s S N).2.mem = erasedMem s.mem S N := by
  simp only [HAL_FLASHEx_Erase, h, HAL_OK, List.headD_nil, List.tail_nil, if_true]
  exact ⟨trivial, trivial, rfl⟩

theorem programLoop_ok : ∀ (k : Nat) (s : Ctrl) (a : Nat) (Data : List Nat) (sofar : Nat),
    s.faults = [] → a + k < 2 ^ 32 →
    (programLoop k s a Data sofar).1 = none ∧ (programLoop k s a Data sofar).2.faults = [] ∧
    (programLoop k s a Data sofar).2.mem = programmedMem s.mem a Data sofar k := by
  intro k
  induction k with
  | zero =>
    intro s a Data sofar h _
    refine ⟨rfl, h, ?_⟩
    funext x
    unfold programmedMem
    rw [if_neg (by omega)]
    rfl
  | succ k ih =>
    intro s a Data sofar h hk
    obtain ⟨h1, h2, h3⟩ := HAL_FLASH_Program_ok s a (Data.getD sofar 0) h
    have hstep : programLoop (k + 1) s a Data sofar
        = programLoop k (HAL_FLASH_Program s a (Data.getD sofar 0)).2 (a + 1) Data (sofar + 1) := by
      rw [programLoop]
      simp only [h1, if_true]
      rw [u32_of_lt (by omega)]
    obtain ⟨i1, i2, i3⟩ := ih (HAL_FLASH_Program s a (Data.getD sofar 0)).2 (a + 1) Data (sofar + 1)
      h2 (by omega)
    rw [hstep]
    refine ⟨i1, i2, ?_⟩
    rw [i3, h3]
    funext x
    unfold programmedMem
    by_cases hx : x = a
    · subst hx
      have c1 : ¬ (x + 1 ≤ x ∧ x < x + 1 + k) := by omega
      have c2 : x ≤ x ∧ x < x + (k + 1) := by omega
      simp [c1, c2]
    · by_cases hr : a + 1 ≤ x ∧ x < a + 1 + k
      · have c2 : a ≤ x ∧ x < a + (k + 1) := by omega
        have c3 : sofar + 1 + (x - (a + 1)) = sofar + (x - a) := by omega
        simp [hr, c2, hx, c3]
      · have c2 : ¬ (a ≤ x ∧ x < a + (k + 1)) := by omega
        simp [hr, c2, hx]

theorem Flash_Write_Data_ok (s : Ctrl) (a : Nat) (Data : List Nat) (n : Nat)
    (h : s.faults = []) (hn : a + n < 2 ^ 32) :
    (Flash_Write_Data s a Data n).1 = 0 ∧ (Flash_Write_Data s a Data n).2.faults = [] ∧
    (Flash_Write_Data s a Data n).2.mem
      = programmedMem (erasedMem s.mem (eraseRequest a n).1 (eraseRequest a n).2) a Data 0 n := by
  have he := HAL_FLASHEx_Erase_ok
    (HAL_FLASH_Unlock { s with calls := s.calls ++ [(a, Data, n)] })
    (eraseRequest a n).1 (eraseRequest a n).2 h
  obtain ⟨e1, e2, e3⟩ := he
  obtain ⟨p1, p2, p3⟩ := programLoop_ok n _ a Data 0 e2 hn
  unfold Flash_Write_Data
  simp only [e1, p1, ne_eq, not_true_eq_false, if_false]
  refine ⟨trivial, ?_, ?_⟩
  · simpa [HAL_FLASH_Lock] using p2
  · simp only [HAL_FLASH_Lock]
    rw [p3, e3]
    rfl

/-! ## Lemmas on writes that stay inside one range test of `GetSector` -/

theorem cases8 (k : Nat) (hk : k ≤ 7) :
    k = 0 ∨ k = 1 ∨ k = 2 ∨ k = 3 ∨ k = 4 ∨ k = 5 ∨ k = 6 ∨ k = 7 := by omega

theorem GetSector_window (k x : Nat) (hk : k ≤ 7) (hlo : (window k).1 ≤ x)
    (hhi : x < (window k).2) : GetSector x = k := by
  rcases cases8 k hk with h | h | h | h | h | h | h | h
  all_goals
    subst h
    simp only [window] at hlo hhi
    unfold GetSector
    repeat (first | rw [if_pos (by exact ⟨hhi, hlo⟩)] | rw [if_neg (by omega)])

theorem sectorOf_window (k x : Nat) (hk : k ≤ 7) (hlo : (window k).1 ≤ x)
    (hhi : x ≤ (window k).2) : sectorOf x = some k := by
  rcases cases8 k hk with h | h | h | h | h | h | h | h
  all_goals
    subst h
    simp only [window] at hlo hhi
    unfold sectorOf
    repeat (first | rw [if_pos (by exact ⟨hlo, hhi⟩)] | rw [if_neg (by omega)])

theorem window_lt (k : Nat) : (window k).2 < 2 ^ 32 := by
  unfold window
  split <;> decide

theorem eraseRequest_window (k a n : Nat) (hk : k ≤ 7) (hlo : (window k).1 ≤ a)
    (hhi : a + n < (window k).2) : eraseRequest a n = (k, 1) := by
  have hlt : a + n < 2 ^ 32 := Nat.lt_trans hhi (window_lt k)
  have h1 : GetSector a = k := GetSector_window k a hk hlo (by omega)
  have h2 : GetSector (a + n) = k := GetSector_window k (a + n) hk (by omega) hhi
  unfold eraseRequest
  simp only [u32_of_lt hlt, h1, h2]
  have : u32 (u32 (k + 2 ^ 32 - k) + 1) = 1 := by unfold u32; omega
  rw [this]

theorem erasedBy_one (k x : Nat) (hk : k ≤ 7) :
    erasedBy k 1 x = true ↔ sectorOf x = some k := by
  have hu : u32 (k + 1) = k + 1 := u32_of_lt (by omega)
  unfold erasedBy
  rw [hu]
  cases sectorOf x with
  | none => simp
  | some j =>
    simp only [decide_eq_true_eq, Option.some.injEq]
    omega

theorem Flash_Write_Data_window (s : Ctrl) (a : Nat) (Data : List Nat) (n k : Nat)
    (hk : k ≤ 7) (h : s.faults = []) (hlo : (window k).1 ≤ a) (hhi : a + n < (window k).2) :
    (Flash_Write_Data s a Data n).2.faults = [] ∧
    ∀ x, (Flash_Write_Data s a Data n).2.mem x
      = if a ≤ x ∧ x < a + n then Data.getD (x - a) 0 % 256
        else if sectorOf x = some k then 0xFF else s.mem x := by
  have hlt : a + n < 2 ^ 32 := Nat.lt_trans hhi (window_lt k)
  obtain ⟨_, w2, w3⟩ := Flash_Write_Data_ok s a Data n h hlt
  refine ⟨w2, ?_⟩
  intro x
  rw [w3, eraseRequest_window k a n hk hlo hhi]
  unfold programmedMem erasedMem
  by_cases hx : a ≤ x ∧ x < a + n
  · have hs : sectorOf x = some k := sectorOf_window k x hk (by omega) (by omega)
    have he : erasedBy k 1 x = true := (erasedBy_one k x hk).2 hs
    simp only [hx, and_self, if_true, he, Nat.zero_add]
    exact land_ff _
  · simp only [hx, if_false]
    by_cases hs : sectorOf x = some k
    · simp [hs, (erasedBy_one k x hk).2 hs]
    · have he : ¬ erasedBy k 1 x = true := fun c => hs ((erasedBy_one k x hk).1 c)
      simp [hs, he]

theorem window_zone (k a n : Nat) (hk : k ≤ 2) (hlo : (window k).1 ≤ a)
    (hhi : a + n < (window k).2) : (a ≥ 0x08000000 ∧ a ≤ 0x0800BFFF) ∧ n < 0x3FFF := by
  obtain h | h | h : k = 0 ∨ k = 1 ∨ k = 2 := by omega
  all_goals
    subst h
    simp only [window] at hlo hhi
    omega

theorem window_shift (k a n : Nat) (hk : k ≤ 2) (hlo : (window k).1 ≤ a)
    (hhi : a + n < (window k).2) :
    ((window (k + 1)).1 ≤ a + 0x4000 ∧ a + 0x4000 + n < (window (k + 1)).2) ∧
    ((window (k + 2)).1 ≤ a + 0x8000 ∧ a + 0x8000 + n < (window (k + 2)).2) := by
  obtain h | h | h : k = 0 ∨ k = 1 ∨ k = 2 := by omega
  all_goals
    subst h
    simp only [window] at hlo hhi ⊢
    omega

theorem some_ne_of_ne {j k : Nat} (h : j ≠ k) (x : Nat) (hs : sectorOf x = some j) :
    ¬ sectorOf x = some k := by
  rw [hs]
  intro c
  exact h (Option.some.inj c)

/-- After a fault-free `Write_Flash` of `n` bytes at a zone address `a` such that
`a` and `a + n` pass the same range test of `GetSector`, the three replicas hold
the data. -/
theorem Write_Flash_replicas (s : Ctrl) (a : Nat) (Data : List Nat) (n k : Nat)
    (hk : k ≤ 2) (h : s.faults = []) (hlo : (window k).1 ≤ a) (hhi : a + n < (window k).2)
    (i : Nat) (hi : i < n) :
    (Write_Flash s a Data n).mem (a + i) = Data.getD i 0 % 256 ∧
    (Write_Flash s a Data n).mem (a + 0x4000 + i) = Data.getD i 0 % 256 ∧
    (Write_Flash s a Data n).mem (a + 0x8000 + i) = Data.getD i 0 % 256 := by
  obtain ⟨hz, hn⟩ := window_zone k a n hk hlo hhi
  obtain ⟨⟨l2, u2⟩, ⟨l3, u3⟩⟩ := window_shift k a n hk hlo hhi
  obtain ⟨f1, m1⟩ := Flash_Write_Data_window s a Data n k (by omega) h hlo hhi
  obtain ⟨f2, m2⟩ := Flash_Write_Data_window (Flash_Write_Data s a Data n).2 (a + 0x4000)
    Data n (k + 1) (by omega) f1 l2 u2
  obtain ⟨_, m3⟩ := Flash_Write_Data_window
    (Flash_Write_Data (Flash_Write_Data s a Data n).2 (a + 0x4000) Data n).2 (a + 0x8000)
    Data n (k + 2) (by omega) f2 l3 u3
  have s1 : sectorOf (a + i) = some k := sectorOf_window k _ (by omega) (by omega) (by omega)
  have s2 : sectorOf (a + 0x4000 + i) = some (k + 1) :=
    sectorOf_window (k + 1) _ (by omega) (by omega) (by omega)
  have e1 : a + i - a = i := by omega
  have e2 : a + 0x4000 + i - (a + 0x4000) = i := by omega
  have e3 : a + 0x8000 + i - (a + 0x8000) = i := by omega
  unfold Write_Flash
  rw [if_pos hz]
  refine ⟨?_, ?_, ?_⟩
  · rw [m3, if_neg (by omega), if_neg (some_ne_of_ne (by omega) _ s1),
      m2, if_neg (by omega), if_neg (some_ne_of_ne (by omega) _ s1),
      m1, if_pos (by omega), e1]
  · rw [m3, if_neg (by omega), if_neg (some_ne_of_ne (by omega) _ s2),
      m2, if_pos (by omega), e2]
  · rw [m3, if_pos (by omega), e3]

/-! ## Lemmas on reads -/

theorem Flash_Read_Data_ptr (mem : Nat → Nat) (a : Nat) (buf : Buf) (ha : a + 4 ≤ 2 ^ 32) :
    Flash_Read_Data mem a buf SIZEOF_PTR = fun i => if i < 4 then mem (a + i) else buf i := by
  rw [SIZEOF_PTR, Flash_Read_Data_pos mem a 4 buf (by omega) (by omega) (by omega)]
  funext i
  by_cases hi : i < 4
  · rw [if_pos hi, if_pos hi, u32_of_lt (by omega)]
  · rw [if_neg hi, if_neg hi]

/-- What `Read_Flash` leaves in `RxBuf` for a zone address: four bytes of the
first or of the second replica, or the leading byte of the first one. -/
theorem Read_Flash_zone (s : Ctrl) (a : Nat) (buf : Buf) (n : Nat) (hz : inZone a)
    (hn : 1 ≤ n) :
    Read_Flash s a buf n
      = if s.mem a = s.mem (a + 0x4000) ∨ s.mem a = s.mem (a + 0x8000) then
          fun i => if i < 4 then s.mem (a + i) else buf i
        else if s.mem (a + 0x4000) = s.mem (a + 0x8000) then
          fun i => if i < 4 then s.mem (a + 0x4000 + i) else buf i
        else fun i => if i = 0 then s.mem a else buf i := by
  have hz' : a ≥ 0x08000000 ∧ a ≤ 0x0800BFFF := hz
  have u1 : u32 (a + 0x4000) = a + 0x4000 := u32_of_lt (by omega)
  have u2 : u32 (a + 0x8000) = a + 0x8000 := u32_of_lt (by omega)
  have hn0 : ¬ n = 0 := by omega
  unfold Read_Flash
  rw [if_pos hz']
  simp only
  rw [if_neg hn0]
  unfold Check_Redundancy
  simp only [u1, u2]
  rw [Flash_Read_Data_ptr s.mem a _ (by omega), Flash_Read_Data_ptr s.mem a _ (by omega),
    Flash_Read_Data_ptr s.mem (a + 0x4000) _ (by omega),
    Flash_Read_Data_ptr s.mem (a + 0x4000) _ (by omega),
    Flash_Read_Data_ptr s.mem (a + 0x8000) _ (by omega)]
  simp only [Nat.add_zero, Nat.lt_add_one, Nat.ofNat_pos, if_true]
  split_ifs <;> rfl

/-- With the length `0` the three candidate arrays of `Read_Flash` are one piece of
storage, the first comparison of `Check_Redundancy` holds, and `RxBuf` receives
four bytes of the first replica whatever the flash holds. -/
theorem Read_Flash_zone_zero (s : Ctrl) (a : Nat) (buf : Buf) (hz : inZone a) :
    Read_Flash s a buf 0 = fun i => if i < 4 then s.mem (a + i) else buf i := by
  have hz' : a ≥ 0x08000000 ∧ a ≤ 0x0800BFFF := hz
  unfold Read_Flash
  rw [if_pos hz']
  simp only
  rw [if_pos trivial]
  unfold Check_Redundancy_aliased
  simp only [or_self, if_true]
  exact Flash_Read_Data_ptr s.mem a buf (by omega)

theorem getD_byte (v : List Nat) (hb : ∀ b ∈ v, b < 256) (i : Nat) (hi : i < v.length) :
    v.getD i 0 % 256 = v.getD i 0 := by
  have hm : v.getD i 0 ∈ v := by
    rw [List.getD_eq_getElem v 0 hi]
    exact List.getElem_mem hi
  exact Nat.mod_eq_of_lt (hb _ hm)

/-! ## The ghost record of calls -/

theorem HAL_FLASH_Program_calls (s : Ctrl) (a d : Nat) :
    (HAL_FLASH_Program s a d).2.calls = s.calls := by
  unfold HAL_FLASH_Program
  simp only
  split_ifs <;> rfl

theorem HAL_FLASHEx_Erase_calls (s : Ctrl) (S N : Nat) :
    (HAL_FLASHEx_Erase s S N).2.calls = s.calls := by
  unfold HAL_FLASHEx_Erase
  simp only
  split_ifs <;> rfl

theorem programLoop_calls : ∀ (k : Nat) (s : Ctrl) (a : Nat) (Data : List Nat) (sofar : Nat),
    (programLoop k s a Data sofar).2.calls = s.calls := by
  intro k
  induction k with
  | zero => intro s a Data sofar; rfl
  | succ k ih =>
    intro s a Data sofar
    rw [programLoop]
    split_ifs
    · rw [ih, HAL_FLASH_Program_calls]
    · exact HAL_FLASH_Program_calls s a _

theorem Flash_Write_Data_calls (s : Ctrl) (a : Nat) (Data : List Nat) (n : Nat) :
    (Flash_Write_Data s a Data n).2.calls = s.calls ++ [(a, Data, n)] := by
  unfold Flash_Write_Data
  simp only
  split_ifs
  · rw [HAL_FLASHEx_Erase_calls]; rfl
  · split
    · rw [programLoop_calls, HAL_FLASHEx_Erase_calls]; rfl
    · show (programLoop n _ a Data 0).2.calls = _
      rw [programLoop_calls, HAL_FLASHEx_Erase_calls]; rfl

/-! ## Round trip outside the zone -/

/-- Outside the zone, for `1 ≤ n ≤ 65535` bytes such that `a` and `a + n` pass the
same range test of `GetSector`, a fault-free `Write_Flash` followed by
`Read_Flash` gives the data back and stores nothing beyond `n` bytes. -/
theorem round_trip_outside_zone (s : Ctrl) (a : Nat) (v : List Nat) (n k : Nat) (buf : Buf)
    (hk3 : 3 ≤ k) (hk7 : k ≤ 7) (hlo : (window k).1 ≤ a) (hhi : a + n < (window k).2)
    (hv : v.length = n) (hb : ∀ b ∈ v, b < 256) (hn1 : 1 ≤ n) (hn2 : n ≤ 65535)
    (h : s.faults = []) (i : Nat) :
    Read_Flash (Write_Flash s a v n) a buf n i = if i < n then v.getD i 0 else buf i := by
  have hlt : a + n < 2 ^ 32 := Nat.lt_trans hhi (window_lt k)
  have hnz : ¬ (a ≥ 0x08000000 ∧ a ≤ 0x0800BFFF) := by
    have h3 : (window 3).1 ≤ (window k).1 := by
      rcases cases8 k hk7 with e | e | e | e | e | e | e | e <;> subst e <;>
        first | omega | decide
    have : (window 3).1 = 0x0800C000 := rfl
    omega
  obtain ⟨_, m⟩ := Flash_Write_Data_window s a v n k hk7 h hlo hhi
  unfold Read_Flash Write_Flash
  rw [if_neg hnz, if_neg hnz, Flash_Read_Data_pos _ a n buf (by omega) hn1 hn2]
  show (if i < n then (Flash_Write_Data s a v n).2.mem (u32 (a + i)) else buf i) = _
  by_cases hi : i < n
  · rw [if_pos hi, if_pos hi, u32_of_lt (by omega), m, if_pos (by omega)]
    have e : a + i - a = i := by omega
    rw [e]
    exact getD_byte v hb i (by omega)
  · rw [if_neg hi, if_neg hi]

/-! ## The store: round trips, replicas, vote, erase span, sector lookup -/

/-- C1 (non-redundant round trip), evaluated at the length `0`. After
`Write_Flash(0x08010000, [], 0)` on a fault-free controller, `Read_Flash(0x08010000,
buf, 0)` does not leave `buf` alone: the `uint16_t` counter of `Flash_Read_Data` is
decremented before it is tested, wraps from `0` to `65535`, and `65536` bytes of
flash are copied, so that `buf[0]` and `buf[65535]`, both `0` before the call, hold
the erased value `0xFF` after it. -/
theorem read_after_empty_write_overruns :
    ¬ inZone 0x08010000 ∧
    Read_Flash (Write_Flash blank 0x08010000 [] 0) 0x08010000 (fun _ => 0) 0 0 = 0xFF ∧
    Read_Flash (Write_Flash blank 0x08010000 [] 0) 0x08010000 (fun _ => 0) 0 65535 = 0xFF := by
  have hw : ∀ x, (Write_Flash blank 0x08010000 [] 0).mem x = 0xFF := by
    intro x
    have hnz : ¬ (0x08010000 ≥ 0x08000000 ∧ 0x08010000 ≤ 0x0800BFFF) := by omega
    unfold Write_Flash
    rw [if_neg hnz]
    obtain ⟨_, m⟩ := Flash_Write_Data_window blank 0x08010000 [] 0 4 (by omega) rfl
      (by decide) (by decide)
    rw [m]
    split_ifs <;> first | rfl | (exfalso; omega)
  have hr : Read_Flash (Write_Flash blank 0x08010000 [] 0) 0x08010000 (fun _ => 0) 0
      = fun i => if i < 65536 then 0xFF else 0 := by
    have hnz : ¬ (0x08010000 ≥ 0x08000000 ∧ 0x08010000 ≤ 0x0800BFFF) := by omega
    unfold Read_Flash
    rw [if_neg hnz, Flash_Read_Data_zero _ _ _ (by omega)]
    funext i
    rw [hw]
  refine ⟨by unfold inZone; omega, ?_, ?_⟩
  · rw [hr]; rfl
  · rw [hr]; rfl

/-- C2 (redundant round trip) fails at `a = 0x08003FFE`, `v = [1, 2, 3]`: the value
crosses from sector 0 into sector 1, the write of the second replica erases
sector 1, and the read returns `0xFF` instead of `3` in `buf[2]`; no fault is
scripted, so every erase and every program succeeds. -/
theorem zone_round_trip_fails_across_sectors :
    inZone 0x08003FFE ∧
    Read_Flash (Write_Flash blank 0x08003FFE [1, 2, 3] 3) 0x08003FFE (fun _ => 0) 3 2 = 0xFF ∧
    Read_Flash (Write_Flash blank 0x08003FFE [1, 2, 3] 3) 0x08003FFE (fun _ => 0) 3 2
      ≠ ([1, 2, 3] : List Nat).getD 2 0 := by
  decide

/-- C2 as amended: for a zone address `a`, a byte sequence `v` of length `len ≤ 4`
such that `a` and `a + len` pass the same range test of `GetSector` (one of the
first three), and a controller on which every operation succeeds, `Write_Flash(a,
v, len)` followed by `Read_Flash(a, buf, len)` leaves `buf[i] = v[i]` for every
`i < len`. -/
theorem zone_round_trip_within_window (s : Ctrl) (a : Nat) (v : List Nat) (len k : Nat) (buf : Buf)
    (hk : k ≤ 2) (hlo : (window k).1 ≤ a) (hhi : a + len < (window k).2)
    (hv : v.length = len) (hb : ∀ b ∈ v, b < 256) (h4 : len ≤ 4) (h : s.faults = [])
    (i : Nat) (hi : i < len) :
    Read_Flash (Write_Flash s a v len) a buf len i = v.getD i 0 := by
  obtain ⟨hz, _⟩ := window_zone k a len hk hlo hhi
  have hrep := Write_Flash_replicas s a v len k hk h hlo hhi
  obtain ⟨r1, r2, _⟩ := hrep 0 (by omega)
  have hlead : (Write_Flash s a v len).mem a = (Write_Flash s a v len).mem (a + 0x4000) := by
    have := r1
    rw [Nat.add_zero] at this
    rw [this, ← r2]
  rw [Read_Flash_zone _ a buf len hz (by omega), if_pos (Or.inl hlead)]
  show (if i < 4 then (Write_Flash s a v len).mem (a + i) else buf i) = v.getD i 0
  rw [if_pos (by omega), (hrep i hi).1]
  exact getD_byte v hb i (by omega)

/-- Witness of C2 as amended at `a = 0x08008010` (sector 2), `v = [0x12, 0x34]`. -/
theorem zone_round_trip_within_window_witness :
    ((2 : Nat) ≤ 2 ∧ (window 2).1 ≤ 0x08008010 ∧ 0x08008010 + 2 < (window 2).2 ∧
      ([0x12, 0x34] : List Nat).length = 2 ∧ (∀ b ∈ ([0x12, 0x34] : List Nat), b < 256) ∧
      2 ≤ 4 ∧ blank.faults = [] ∧ 1 < 2) ∧
    Read_Flash (Write_Flash blank 0x08008010 [0x12, 0x34] 2) 0x08008010 (fun _ => 0) 2 1
      = ([0x12, 0x34] : List Nat).getD 1 0 :=
  ⟨by decide, zone_round_trip_within_window blank 0x08008010 [0x12, 0x34] 2 2 (fun _ => 0)
    (by decide) (by decide) (by decide) rfl (by decide) (by decide) rfl 1 (by decide)⟩

/-- C3 (replica set after a write) fails at `a = 0x08003FFE`, `v = [1, 2, 3]`: the
third byte of the first replica lies at `0x08004000`, in sector 1, which the write
of the second replica erases; after `Write_Flash` the cell holds `0xFF`, not `3`.
No fault is scripted, so every erase and every program succeeds. -/
theorem replica_destroyed_across_sectors :
    inZone 0x08003FFE ∧
    (Write_Flash blank 0x08003FFE [1, 2, 3] 3).mem (0x08003FFE + 2) = 0xFF ∧
    (Write_Flash blank 0x08003FFE [1, 2, 3] 3).mem (0x08003FFE + 2)
      ≠ ([1, 2, 3] : List Nat).getD 2 0 := by
  decide

/-- C3 as amended: for a zone address `a` and a non-empty byte sequence `v` of
length `n` such that `a` and `a + n` pass the same range test of `GetSector` (one
of the first three), after a `Write_Flash(a, v, n)` in which every controller
operation succeeds the flash holds `v` at `[a, a+n)`, `[a+0x4000, a+0x4000+n)` and
`[a+0x8000, a+0x8000+n)` at the same time. -/
theorem replicas_hold_within_window (s : Ctrl) (a : Nat) (v : List Nat) (n k : Nat)
    (hk : k ≤ 2) (hlo : (window k).1 ≤ a) (hhi : a + n < (window k).2)
    (hv : v.length = n) (hb : ∀ b ∈ v, b < 256) (h : s.faults = [])
    (i : Nat) (hi : i < n) :
    (Write_Flash s a v n).mem (a + i) = v.getD i 0 ∧
    (Write_Flash s a v n).mem (a + 0x4000 + i) = v.getD i 0 ∧
    (Write_Flash s a v n).mem (a + 0x8000 + i) = v.getD i 0 := by
  have hrep := Write_Flash_replicas s a v n k hk h hlo hhi i hi
  rw [getD_byte v hb i (by omega)] at hrep
  exact hrep

/-- Witness of C3 as amended at `a = 0x08008010` (sector 2), `v = [0x12, 0x34]`: the
replicas lie in sectors 2, 3 and 4. -/
theorem replicas_hold_within_window_witness :
    ((2 : Nat) ≤ 2 ∧ (window 2).1 ≤ 0x08008010 ∧ 0x08008010 + 2 < (window 2).2 ∧
      ([0x12, 0x34] : List Nat).length = 2 ∧ (∀ b ∈ ([0x12, 0x34] : List Nat), b < 256) ∧
      blank.faults = [] ∧ 1 < 2) ∧
    ((Write_Flash blank 0x08008010 [0x12, 0x34] 2).mem (0x08008010 + 1)
        = ([0x12, 0x34] : List Nat).getD 1 0 ∧
      (Write_Flash blank 0x08008010 [0x12, 0x34] 2).mem (0x08008010 + 0x4000 + 1)
        = ([0x12, 0x34] : List Nat).getD 1 0 ∧
      (Write_Flash blank 0x08008010 [0x12, 0x34] 2).mem (0x08008010 + 0x8000 + 1)
        = ([0x12, 0x34] : List Nat).getD 1 0) :=
  ⟨by decide, replicas_hold_within_window blank 0x08008010 [0x12, 0x34] 2 2
    (by decide) (by decide) (by decide) rfl (by decide) rfl 1 (by decide)⟩

/-- C4 (majority recovery), evaluated at `a = 0x08000000`, `len = 5`. The second and
third replicas hold `[1, 2, 3, 4, 5]`, the first one differs from them in its
leading byte only. `Read_Flash` picks the right replica but copies
`sizeof(uint8_t *) = 4` bytes of it whatever `len` is: `buf` receives
`[1, 2, 3, 4]` and `buf[4]` keeps its former content `0` instead of `5`. -/
theorem majority_read_stops_at_pointer_size :
    inZone 0x08000000 ∧
    (List.range 5).map (fun i =>
      (corrupt (Write_Flash blank 0x08000000 [1, 2, 3, 4, 5] 5) 0x08000000 9).mem
        (0x08000000 + i)) = [9, 2, 3, 4, 5] ∧
    (List.range 5).map (fun i =>
      (corrupt (Write_Flash blank 0x08000000 [1, 2, 3, 4, 5] 5) 0x08000000 9).mem
        (0x08004000 + i)) = [1, 2, 3, 4, 5] ∧
    (List.range 5).map (fun i =>
      (corrupt (Write_Flash blank 0x08000000 [1, 2, 3, 4, 5] 5) 0x08000000 9).mem
        (0x08008000 + i)) = [1, 2, 3, 4, 5] ∧
    (List.range 5).map
      (Read_Flash (corrupt (Write_Flash blank 0x08000000 [1, 2, 3, 4, 5] 5) 0x08000000 9)
        0x08000000 (fun _ => 0) 5) = [1, 2, 3, 4, 0] := by
  decide

/-- C6 (minimal erase span), evaluated at `a = 0x08004000`, `len = 0x3FFF`. The range
`[a, a+len)` lies in the flash and in sector 1, yet `a + len = 0x08007FFF` fails
the strict test `Address < 0x08007FFF` of `GetSector`, `EndSector` is `0`,
`NbSectors = (0 - 1) + 1` is `0` in `uint32_t`, and the erase request
`(Sector, NbSectors) = (1, 0)` covers no sector: the cell `a`, about to be
programmed, is not erased. -/
theorem erase_request_misses_written_sector :
    0x08000000 ≤ 0x08004000 ∧ 0x08004000 + 0x3FFF ≤ 0x08080000 ∧
    eraseRequest 0x08004000 0x3FFF = (1, 0) ∧
    sectorOf 0x08004000 = some 1 ∧
    erasedBy (eraseRequest 0x08004000 0x3FFF).1 (eraseRequest 0x08004000 0x3FFF).2 0x08004000
      = false := by
  decide

/-- C7 (concrete scenario): on a controller on which every operation succeeds,
`Write_Flash(0x08000000, [0xAA], 1)` issues, in this order and with nothing else,
an erase of the single sector 0 and a program of `0xAA` at `0x08000000`, an erase
of the single sector 1 (which holds `0x08004000`) and a program of `0xAA` at
`0x08004000`, an erase of the single sector 2 (which holds `0x08008000`) and a
program of `0xAA` at `0x08008000`; the three cells then hold `0xAA`, and a
subsequent `Read_Flash(0x08000000, buf, 1)` yields `buf[0] = 0xAA`. -/
theorem scenario_write_AA (s : Ctrl) (buf : Buf) (h : s.faults = []) :
    (Write_Flash s 0x08000000 [0xAA] 1).log
      = s.log ++ [HalOp.unlock, HalOp.erase 0 1, HalOp.program 0x08000000 0xAA, HalOp.lock,
          HalOp.unlock, HalOp.erase 1 1, HalOp.program 0x08004000 0xAA, HalOp.lock,
          HalOp.unlock, HalOp.erase 2 1, HalOp.program 0x08008000 0xAA, HalOp.lock] ∧
    sectorOf 0x08000000 = some 0 ∧ sectorOf 0x08004000 = some 1 ∧ sectorOf 0x08008000 = some 2 ∧
    (Write_Flash s 0x08000000 [0xAA] 1).mem 0x08000000 = 0xAA ∧
    (Write_Flash s 0x08000000 [0xAA] 1).mem 0x08004000 = 0xAA ∧
    (Write_Flash s 0x08000000 [0xAA] 1).mem 0x08008000 = 0xAA ∧
    Read_Flash (Write_Flash s 0x08000000 [0xAA] 1) 0x08000000 buf 1 0 = 0xAA := by
  obtain ⟨r1, r2, r3⟩ := Write_Flash_replicas s 0x08000000 [0xAA] 1 0 (by omega) h
    (by decide) (by decide) 0 (by omega)
  have hz : inZone 0x08000000 := by decide
  refine ⟨?_, by decide, by decide, by decide, r1, r2, r3, ?_⟩
  · obtain ⟨mem, locked, faults, err, log, calls⟩ := s
    simp only at h
    subst h
    simp [Write_Flash, Flash_Write_Data, HAL_FLASH_Unlock, HAL_FLASH_Lock, HAL_FLASHEx_Erase,
      HAL_FLASH_Program, programLoop, eraseRequest, GetSector, u32, HAL_OK]
  · rw [Read_Flash_zone _ _ buf 1 hz (by omega), if_pos (Or.inl (r1.trans r2.symm))]
    exact r1

/-- Witness of C7 on the controller at rest over an erased flash. -/
theorem scenario_write_AA_witness :
    blank.faults = [] ∧
    ((Write_Flash blank 0x08000000 [0xAA] 1).log
      = blank.log ++ [HalOp.unlock, HalOp.erase 0 1, HalOp.program 0x08000000 0xAA, HalOp.lock,
          HalOp.unlock, HalOp.erase 1 1, HalOp.program 0x08004000 0xAA, HalOp.lock,
          HalOp.unlock, HalOp.erase 2 1, HalOp.program 0x08008000 0xAA, HalOp.lock] ∧
    sectorOf 0x08000000 = some 0 ∧ sectorOf 0x08004000 = some 1 ∧ sectorOf 0x08008000 = some 2 ∧
    (Write_Flash blank 0x08000000 [0xAA] 1).mem 0x08000000 = 0xAA ∧
    (Write_Flash blank 0x08000000 [0xAA] 1).mem 0x08004000 = 0xAA ∧
    (Write_Flash blank 0x08000000 [0xAA] 1).mem 0x08008000 = 0xAA ∧
    Read_Flash (Write_Flash blank 0x08000000 [0xAA] 1) 0x08000000 (fun _ => 0) 1 0 = 0xAA) :=
  ⟨rfl, scenario_write_AA blank (fun _ => 0) rfl⟩

/-- C8 (region lookup), evaluated at `0x08007FFF`, the last byte of sector 1 in the
documented layout: every upper test of `GetSector` is strict, no test matches, and
the function returns the initial value `0` of `sector` instead of `1`. -/
theorem GetSector_last_byte_of_sector :
    0x08000000 ≤ 0x08007FFF ∧ 0x08007FFF ≤ 0x0807FFFF ∧
    sectorOf 0x08007FFF = some 1 ∧ GetSector 0x08007FFF = 0 := by
  decide

/-- C9 (out-of-range default): for every address below `0x08000000` or above
`0x0807FFFF`, which no sector of the layout contains, `GetSector` returns `0`, the
value it returns for `0x08000000` in sector 0; its result type has no room for an
error. -/
theorem GetSector_out_of_range_default (a : Nat) (h : a < 0x08000000 ∨ a > 0x0807FFFF) :
    GetSector a = 0 ∧ GetSector a = GetSector 0x08000000 ∧ sectorOf a = none := by
  have h0 : GetSector 0x08000000 = 0 := by decide
  have hg : GetSector a = 0 := by
    unfold GetSector
    split_ifs <;> omega
  refine ⟨hg, by rw [hg, h0], ?_⟩
  unfold sectorOf
  split_ifs <;> first | rfl | (exfalso; omega)

/-- Witness of C9 at `0x08080000`, the first address past the flash. -/
theorem GetSector_out_of_range_default_witness :
    (0x08080000 < 0x08000000 ∨ 0x08080000 > 0x0807FFFF) ∧
    (GetSector 0x08080000 = 0 ∧ GetSector 0x08080000 = GetSector 0x08000000 ∧
      sectorOf 0x08080000 = none) :=
  ⟨by decide, GetSector_out_of_range_default 0x08080000 (by decide)⟩

/-- C10 (replication policy on write): `Write_Flash(a, Data, n)` calls
`Flash_Write_Data` three times, at `a`, `a + 0x4000` and `a + 0x8000` in this order
with the same `Data` and `n`, when `0x08000000 ≤ a ≤ 0x0800BFFF`, and once, at
`a`, otherwise; whatever the controller answers, the three-call sequence is
recorded if and only if `a` is in the zone. -/
theorem Write_Flash_replication_policy (s : Ctrl) (a : Nat) (Data : List Nat) (n : Nat) :
    (Write_Flash s a Data n).calls
      = s.calls ++ (if 0x08000000 ≤ a ∧ a ≤ 0x0800BFFF then
          [(a, Data, n), (a + 0x4000, Data, n), (a + 0x8000, Data, n)]
        else [(a, Data, n)]) ∧
    ((Write_Flash s a Data n).calls
      = s.calls ++ [(a, Data, n), (a + 0x4000, Data, n), (a + 0x8000, Data, n)]
      ↔ 0x08000000 ≤ a ∧ a ≤ 0x0800BFFF) := by
  have key : (Write_Flash s a Data n).calls
      = s.calls ++ (if 0x08000000 ≤ a ∧ a ≤ 0x0800BFFF then
          [(a, Data, n), (a + 0x4000, Data, n), (a + 0x8000, Data, n)]
        else [(a, Data, n)]) := by
    unfold Write_Flash
    by_cases hz : a ≥ 0x08000000 ∧ a ≤ 0x0800BFFF
    · rw [if_pos hz, if_pos hz]
      simp only [Flash_Write_Data_calls, List.append_assoc, List.singleton_append]
      rfl
    · rw [if_neg hz, if_neg hz]
      exact Flash_Write_Data_calls s a Data n
  refine ⟨key, ?_⟩
  rw [key]
  by_cases hz : 0x08000000 ≤ a ∧ a ≤ 0x0800BFFF
  · simp [hz]
  · simp [hz]

/-! ## Lemmas on runs with controller faults -/

theorem getD_tail (l : List Nat) (j : Nat) : l.tail.getD j 0 = l.getD (j + 1) 0 := by
  cases l with
  | nil => rfl
  | cons x xs => rfl

theorem headD_eq_getD (l : List Nat) : l.headD 0 = l.getD 0 0 := by
  cases l with
  | nil => rfl
  | cons x xs => rfl

theorem HAL_FLASH_Program_faults (s : Ctrl) (a d : Nat) :
    (HAL_FLASH_Program s a d).2.faults = s.faults.tail := by
  unfold HAL_FLASH_Program
  simp only
  split_ifs <;> rfl

theorem HAL_FLASH_Program_status (s : Ctrl) (a d : Nat) :
    ((HAL_FLASH_Program s a d).1 = HAL_OK ↔ s.faults.headD 0 = 0) ∧
    (s.faults.headD 0 ≠ 0 → HAL_FLASH_GetError (HAL_FLASH_Program s a d).2 = s.faults.headD 0) := by
  unfold HAL_FLASH_Program HAL_FLASH_GetError HAL_OK
  simp only
  generalize s.faults.headD 0 = c
  by_cases h : c = 0 <;> simp [h]

theorem HAL_FLASHEx_Erase_faults (s : Ctrl) (S N : Nat) :
    (HAL_FLASHEx_Erase s S N).2.faults = s.faults.tail := by
  unfold HAL_FLASHEx_Erase
  simp only
  split_ifs <;> rfl

theorem HAL_FLASHEx_Erase_status (s : Ctrl) (S N : Nat) :
    ((HAL_FLASHEx_Erase s S N).1 = HAL_OK ↔ s.faults.headD 0 = 0) ∧
    (s.faults.headD 0 ≠ 0 → HAL_FLASH_GetError (HAL_FLASHEx_Erase s S N).2 = s.faults.headD 0) := by
  unfold HAL_FLASHEx_Erase HAL_FLASH_GetError HAL_OK
  simp only
  generalize s.faults.headD 0 = c
  by_cases h : c = 0 <;> simp [h]

/-- The loop of byte programs runs to its end exactly when the controller answers
`HAL_OK` to each of its `k` programs; the value it returns otherwise is not `0`. -/
theorem programLoop_result : ∀ (k : Nat) (s : Ctrl) (a : Nat) (Data : List Nat) (sofar : Nat),
    ((programLoop k s a Data sofar).1 = none ↔ ∀ j, j < k → s.faults.getD j 0 = 0) ∧
    (∀ e, (programLoop k s a Data sofar).1 = some e → e ≠ 0) := by
  intro k
  induction k with
  | zero =>
    intro s a Data sofar
    refine ⟨⟨fun _ j hj => by omega, fun _ => rfl⟩, ?_⟩
    intro e he
    simp [programLoop] at he
  | succ k ih =>
    intro s a Data sofar
    obtain ⟨st, se⟩ := HAL_FLASH_Program_status s a (Data.getD sofar 0)
    have hf := HAL_FLASH_Program_faults s a (Data.getD sofar 0)
    rw [programLoop]
    by_cases h0 : s.faults.headD 0 = 0
    · rw [if_pos (st.2 h0)]
      obtain ⟨i1, i2⟩ := ih (HAL_FLASH_Program s a (Data.getD sofar 0)).2 (u32 (a + 1)) Data
        (sofar + 1)
      refine ⟨?_, i2⟩
      rw [i1, hf]
      constructor
      · intro hall j hj
        cases j with
        | zero => rw [← headD_eq_getD]; exact h0
        | succ j => rw [← getD_tail]; exact hall j (by omega)
      · intro hall j hj
        rw [getD_tail]; exact hall (j + 1) (by omega)
    · have hne : ¬ (HAL_FLASH_Program s a (Data.getD sofar 0)).1 = HAL_OK := fun c => h0 (st.1 c)
      rw [if_neg hne]
      refine ⟨⟨fun c => by simp at c, fun hall => ?_⟩, ?_⟩
      · exact absurd (by rw [headD_eq_getD]; exact hall 0 (by omega)) h0
      · intro e he
        simp only [Option.some.injEq] at he
        rw [← he, se h0]
        exact h0

/-- A value returned from inside the loop of byte programs is the one that
`HAL_FLASH_GetError` gives in the state in which the loop is left. -/
theorem programLoop_error : ∀ (k : Nat) (s : Ctrl) (a : Nat) (Data : List Nat) (sofar e : Nat),
    (programLoop k s a Data sofar).1 = some e →
      e = HAL_FLASH_GetError (programLoop k s a Data sofar).2 := by
  intro k
  induction k with
  | zero =>
    intro s a Data sofar e he
    simp [programLoop] at he
  | succ k ih =>
    intro s a Data sofar e
    rw [programLoop]
    split_ifs
    · exact ih _ _ Data _ e
    · intro he
      simp only [Option.some.injEq] at he
      exact he.symm

theorem HAL_FLASH_Program_log (s : Ctrl) (a d : Nat) :
    (HAL_FLASH_Program s a d).2.log = s.log ++ [HalOp.program a d] := by
  unfold HAL_FLASH_Program
  simp only
  split_ifs <;> rfl

theorem HAL_FLASHEx_Erase_log (s : Ctrl) (S N : Nat) :
    (HAL_FLASHEx_Erase s S N).2.log = s.log ++ [HalOp.erase S N] := by
  unfold HAL_FLASHEx_Erase
  simp only
  split_ifs <;> rfl

theorem HAL_FLASH_Program_mem (s : Ctrl) (a d x : Nat) (hx : x ≠ a) :
    (HAL_FLASH_Program s a d).2.mem x = s.mem x := by
  unfold HAL_FLASH_Program
  simp only
  split_ifs
  · show (if x = a then s.mem x &&& d % 256 else s.mem x) = s.mem x
    rw [if_neg hx]
  · rfl

theorem HAL_FLASHEx_Erase_mem (s : Ctrl) (S N : Nat) (h : s.faults.headD 0 = 0) :
    (HAL_FLASHEx_Erase s S N).2.mem = erasedMem s.mem S N := by
  unfold HAL_FLASHEx_Erase HAL_OK
  simp only
  rw [if_pos h]
  rfl

/-- The loop of byte programs only appends program requests to the log. -/
theorem programLoop_log : ∀ (k : Nat) (s : Ctrl) (a : Nat) (Data : List Nat) (sofar : Nat),
    ∃ L, (programLoop k s a Data sofar).2.log = s.log ++ L ∧ L.filter isErase = [] := by
  intro k
  induction k with
  | zero => intro s a Data sofar; exact ⟨[], by simp [programLoop], rfl⟩
  | succ k ih =>
    intro s a Data sofar
    rw [programLoop]
    split_ifs
    · obtain ⟨L, hL, hE⟩ := ih (HAL_FLASH_Program s a (Data.getD sofar 0)).2 (u32 (a + 1)) Data
        (sofar + 1)
      refine ⟨HalOp.program a (Data.getD sofar 0) :: L, ?_, ?_⟩
      · rw [hL, HAL_FLASH_Program_log, List.append_assoc]; rfl
      · rw [List.filter_cons]; simpa [isErase] using hE
    · exact ⟨[HalOp.program a (Data.getD sofar 0)], HAL_FLASH_Program_log s a _, rfl⟩

/-- A loop of at least one byte program requests the program of its first byte. -/
theorem programLoop_first (k : Nat) (s : Ctrl) (a : Nat) (Data : List Nat) (sofar : Nat) :
    HalOp.program a (Data.getD sofar 0) ∈ (programLoop (k + 1) s a Data sofar).2.log := by
  rw [programLoop]
  split_ifs
  · obtain ⟨L, hL, _⟩ := programLoop_log k (HAL_FLASH_Program s a (Data.getD sofar 0)).2
      (u32 (a + 1)) Data (sofar + 1)
    rw [hL, HAL_FLASH_Program_log]
    simp
  · show _ ∈ (HAL_FLASH_Program s a (Data.getD sofar 0)).2.log
    rw [HAL_FLASH_Program_log]
    simp

/-- A byte that the loop does not address keeps its content, whatever the
controller answers. -/
theorem programLoop_frame : ∀ (k : Nat) (s : Ctrl) (a : Nat) (Data : List Nat) (sofar x : Nat),
    a < 2 ^ 32 → (∀ j, j < k → x ≠ u32 (a + j)) →
    (programLoop k s a Data sofar).2.mem x = s.mem x := by
  intro k
  induction k with
  | zero => intro s a Data sofar x _ _; rfl
  | succ k ih =>
    intro s a Data sofar x ha hx
    have hxa : x ≠ a := by
      have := hx 0 (by omega)
      rwa [Nat.add_zero, u32_of_lt ha] at this
    rw [programLoop]
    split_ifs
    · rw [ih _ _ _ _ _ (u32_lt _) (fun j hj => by rw [u32_succ_add]; exact hx (j + 1) (by omega))]
      exact HAL_FLASH_Program_mem s a _ x hxa
    · exact HAL_FLASH_Program_mem s a _ x hxa

/-- The requests of one call of `Flash_Write_Data`: a single erase request, the
one computed from the address and the byte count, whatever the controller
answers. -/
theorem Flash_Write_Data_log (s : Ctrl) (a : Nat) (Data : List Nat) (n : Nat) :
    ∃ L, (Flash_Write_Data s a Data n).2.log = s.log ++ L ∧
      L.filter isErase = [HalOp.erase (eraseRequest a n).1 (eraseRequest a n).2] := by
  have he := HAL_FLASHEx_Erase_log
    (HAL_FLASH_Unlock { s with calls := s.calls ++ [(a, Data, n)] })
    (eraseRequest a n).1 (eraseRequest a n).2
  have hu : (HAL_FLASH_Unlock { s with calls := s.calls ++ [(a, Data, n)] }).log
      = s.log ++ [HalOp.unlock] := rfl
  rw [hu] at he
  obtain ⟨L, hL, hE⟩ := programLoop_log n
    (HAL_FLASHEx_Erase (HAL_FLASH_Unlock { s with calls := s.calls ++ [(a, Data, n)] })
      (eraseRequest a n).1 (eraseRequest a n).2).2 a Data 0
  rw [he] at hL
  unfold Flash_Write_Data
  simp only
  split_ifs
  · refine ⟨[HalOp.unlock, HalOp.erase (eraseRequest a n).1 (eraseRequest a n).2], ?_, rfl⟩
    rw [he, List.append_assoc]; rfl
  · split
    · refine ⟨[HalOp.unlock, HalOp.erase (eraseRequest a n).1 (eraseRequest a n).2] ++ L, ?_, ?_⟩
      · show (programLoop n _ a Data 0).2.log = _
        rw [hL]; simp
      · rw [List.filter_append, hE]; rfl
    · refine ⟨[HalOp.unlock, HalOp.erase (eraseRequest a n).1 (eraseRequest a n).2] ++ L
        ++ [HalOp.lock], ?_, ?_⟩
      · show (programLoop n _ a Data 0).2.log ++ [HalOp.lock] = _
        rw [hL]; simp
      · rw [List.filter_append, List.filter_append, hE]; rfl

/-- When the controller answers `HAL_OK` to the erase of a call of at least one
byte, the call requests the program of its first byte. -/
theorem Flash_Write_Data_first_program (s : Ctrl) (a : Nat) (Data : List Nat) (n : Nat)
    (h0 : s.faults.headD 0 = 0) (hn : 1 ≤ n) :
    HalOp.program a (Data.getD 0 0) ∈ (Flash_Write_Data s a Data n).2.log := by
  obtain ⟨m, rfl⟩ : ∃ m, n = m + 1 := ⟨n - 1, by omega⟩
  have hok := (HAL_FLASHEx_Erase_status
    (HAL_FLASH_Unlock { s with calls := s.calls ++ [(a, Data, m + 1)] })
    (eraseRequest a (m + 1)).1 (eraseRequest a (m + 1)).2).1.2 h0
  have hp := programLoop_first m
    (HAL_FLASHEx_Erase (HAL_FLASH_Unlock { s with calls := s.calls ++ [(a, Data, m + 1)] })
      (eraseRequest a (m + 1)).1 (eraseRequest a (m + 1)).2).2 a Data 0
  unfold Flash_Write_Data
  simp only
  rw [if_neg (fun c => c hok)]
  split
  · exact hp
  · show _ ∈ (programLoop (m + 1) _ a Data 0).2.log ++ [HalOp.lock]
    exact List.mem_append_left _ hp

theorem sectorOf_none (x : Nat) (h : x < 0x08000000 ∨ x > 0x0807FFFF) : sectorOf x = none := by
  unfold sectorOf
  repeat (first | rw [if_neg (by omega)])

theorem erasedBy_in_flash (S N x : Nat) (h : erasedBy S N x = true) :
    0x08000000 ≤ x ∧ x ≤ 0x0807FFFF := by
  by_contra hc
  have hn : sectorOf x = none := sectorOf_none x (by omega)
  unfold erasedBy at h
  rw [hn] at h
  exact absurd h (by simp)

/-- After a call of `Flash_Write_Data` whose erase succeeds, a byte of an erased
sector that lies outside `[a, a+n)` is in the erased state. -/
theorem Flash_Write_Data_erased (s : Ctrl) (a : Nat) (Data : List Nat) (n x : Nat)
    (ha : a < 2 ^ 32) (hn : n ≤ 65535) (h0 : s.faults.headD 0 = 0)
    (hx : erasedBy (eraseRequest a n).1 (eraseRequest a n).2 x = true)
    (hout : ¬ (a ≤ x ∧ x < a + n)) :
    (Flash_Write_Data s a Data n).2.mem x = 0xFF := by
  obtain ⟨hx1, hx2⟩ := erasedBy_in_flash _ _ x hx
  have hno : ∀ j, j < n → x ≠ u32 (a + j) := by
    intro j hj
    unfold u32
    omega
  have hok := (HAL_FLASHEx_Erase_status
    (HAL_FLASH_Unlock { s with calls := s.calls ++ [(a, Data, n)] })
    (eraseRequest a n).1 (eraseRequest a n).2).1.2 h0
  have hm := HAL_FLASHEx_Erase_mem
    (HAL_FLASH_Unlock { s with calls := s.calls ++ [(a, Data, n)] })
    (eraseRequest a n).1 (eraseRequest a n).2 h0
  have hp := programLoop_frame n
    (HAL_FLASHEx_Erase (HAL_FLASH_Unlock { s with calls := s.calls ++ [(a, Data, n)] })
      (eraseRequest a n).1 (eraseRequest a n).2).2 a Data 0 x ha hno
  rw [hm] at hp
  have he : erasedMem (HAL_FLASH_Unlock { s with calls := s.calls ++ [(a, Data, n)] }).mem
      (eraseRequest a n).1 (eraseRequest a n).2 x = 0xFF := by
    unfold erasedMem
    rw [if_pos hx]
  rw [he] at hp
  unfold Flash_Write_Data
  simp only
  rw [if_neg (fun c => c hok)]
  split
  · exact hp
  · exact hp

theorem Flash_Read_Data_four (mem : Nat → Nat) (a : Nat) (buf : Buf) (ha : a < 2 ^ 32) :
    Flash_Read_Data mem a buf SIZEOF_PTR = fun i => if i < 4 then mem (u32 (a + i)) else buf i := by
  rw [SIZEOF_PTR, Flash_Read_Data_pos mem a 4 buf ha (by omega) (by omega)]

/-- The four buffers that `Check_Redundancy` leaves. -/
theorem Check_Redundancy_eq (mem : Nat → Nat) (A : Nat) (r1 r2 r3 rd : Buf) (hA : A < 2 ^ 32) :
    Check_Redundancy mem A r1 r2 r3 rd
      = ((fun i => if i < 4 then mem (u32 (A + i)) else r1 i),
         (fun i => if i < 4 then mem (u32 (u32 (A + 0x4000) + i)) else r2 i),
         (fun i => if i < 4 then mem (u32 (u32 (A + 0x8000) + i)) else r3 i),
         if mem A = mem (u32 (A + 0x4000)) ∨ mem A = mem (u32 (A + 0x8000)) then
           fun i => if i < 4 then mem (u32 (A + i)) else rd i
         else if mem (u32 (A + 0x4000)) = mem (u32 (A + 0x8000)) then
           fun i => if i < 4 then mem (u32 (u32 (A + 0x4000) + i)) else rd i
         else fun i => if i = 0 then mem A else rd i) := by
  have e0 : u32 (A + 0) = A := by rw [Nat.add_zero, u32_of_lt hA]
  have e1 : u32 (u32 (A + 0x4000) + 0) = u32 (A + 0x4000) := by
    rw [Nat.add_zero, u32_of_lt (u32_lt _)]
  have e2 : u32 (u32 (A + 0x8000) + 0) = u32 (A + 0x8000) := by
    rw [Nat.add_zero, u32_of_lt (u32_lt _)]
  unfold Check_Redundancy
  simp only [Flash_Read_Data_four mem A _ hA, Flash_Read_Data_four mem _ _ (u32_lt (A + 0x4000)),
    Flash_Read_Data_four mem _ _ (u32_lt (A + 0x8000))]
  simp only [Nat.ofNat_pos, if_true, e0, e1, e2]
  split_ifs <;> rfl

/-! ## The store under faults, read lengths and the vote -/

/-- C11 (non-redundant read length), evaluated at the length `0` on a flash whose
cells `0x08010000` and `0x0801FFFF` hold `0x11` and `0x22`. `Read_Flash(0x08010000,
RxBuf, 0)` should store nothing; the counter of `Flash_Read_Data` wraps from `0` to
`65535` and `65536` bytes are copied: `RxBuf[0]` becomes `0x11` and `RxBuf[65535]`
becomes `0x22`, both at an index that is not below `n = 0`. -/
theorem read_of_length_zero_overruns :
    ¬ inZone 0x08010000 ∧
    Read_Flash (corrupt (corrupt blank 0x08010000 0x11) 0x0801FFFF 0x22) 0x08010000
      (fun _ => 0) 0 0 = 0x11 ∧
    Read_Flash (corrupt (corrupt blank 0x08010000 0x11) 0x0801FFFF 0x22) 0x08010000
      (fun _ => 0) 0 65535 = 0x22 := by
  have hnz : ¬ (0x08010000 ≥ 0x08000000 ∧ 0x08010000 ≤ 0x0800BFFF) := by omega
  have hr : Read_Flash (corrupt (corrupt blank 0x08010000 0x11) 0x0801FFFF 0x22) 0x08010000
      (fun _ => 0) 0
      = fun i => if i < 65536 then
          (corrupt (corrupt blank 0x08010000 0x11) 0x0801FFFF 0x22).mem (u32 (0x08010000 + i))
        else 0 := by
    unfold Read_Flash
    rw [if_neg hnz, Flash_Read_Data_zero _ _ _ (by omega)]
  refine ⟨by unfold inZone; omega, ?_, ?_⟩
  · rw [hr]; decide
  · rw [hr]; decide

/-- C12 (redundant read length), evaluated at `a = 0x08000000` on a flash whose three
replicas hold `[1, 2, 3, 4, 5]`. With `n = 5` the candidate buffer of the first
replica receives `sizeof(uint8_t *) = 4` bytes, its fifth byte is not read, and
`RxBuf` receives `[1, 2, 3, 4]` only; with `n = 1` the same four bytes are
delivered: what is read and delivered does not depend on `n`. -/
theorem zone_read_ignores_length :
    inZone 0x08000000 ∧
    (List.range 5).map (fun i =>
      (Write_Flash blank 0x08000000 [1, 2, 3, 4, 5] 5).mem (0x08000000 + i)) = [1, 2, 3, 4, 5] ∧
    (List.range 5).map (Check_Redundancy (Write_Flash blank 0x08000000 [1, 2, 3, 4, 5] 5).mem
      0x08000000 (fun _ => 0) (fun _ => 0) (fun _ => 0) (fun _ => 0)).1 = [1, 2, 3, 4, 0] ∧
    (List.range 5).map (Read_Flash (Write_Flash blank 0x08000000 [1, 2, 3, 4, 5] 5)
      0x08000000 (fun _ => 0) 5) = [1, 2, 3, 4, 0] ∧
    (List.range 5).map (Read_Flash (Write_Flash blank 0x08000000 [1, 2, 3, 4, 5] 5)
      0x08000000 (fun _ => 0) 1) = [1, 2, 3, 4, 0] := by
  decide

/-- C13 (independent replica attempts): for every zone address and every script of
controller answers, `Write_Flash` requests exactly three erases, those of the
replicas at `a`, `a + 0x4000` and `a + 0x8000` in this order; and whatever
happened to the earlier replicas, as soon as the controller answers `HAL_OK` to
the erase of the second (third) replica and `n ≥ 1`, the program of its first
byte is requested. -/
theorem replica_attempts_independent (s : Ctrl) (a : Nat) (Data : List Nat) (n : Nat) (hz : inZone a) :
    (∃ L, (Write_Flash s a Data n).log = s.log ++ L ∧
      L.filter isErase
        = [HalOp.erase (eraseRequest a n).1 (eraseRequest a n).2,
           HalOp.erase (eraseRequest (a + 0x4000) n).1 (eraseRequest (a + 0x4000) n).2,
           HalOp.erase (eraseRequest (a + 0x8000) n).1 (eraseRequest (a + 0x8000) n).2]) ∧
    (1 ≤ n → (Flash_Write_Data s a Data n).2.faults.headD 0 = 0 →
      HalOp.program (a + 0x4000) (Data.getD 0 0) ∈ (Write_Flash s a Data n).log) ∧
    (1 ≤ n →
      (Flash_Write_Data (Flash_Write_Data s a Data n).2 (a + 0x4000) Data n).2.faults.headD 0 = 0 →
      HalOp.program (a + 0x8000) (Data.getD 0 0) ∈ (Write_Flash s a Data n).log) := by
  have hz' : a ≥ 0x08000000 ∧ a ≤ 0x0800BFFF := hz
  obtain ⟨L1, h1, e1⟩ := Flash_Write_Data_log s a Data n
  obtain ⟨L2, h2, e2⟩ := Flash_Write_Data_log (Flash_Write_Data s a Data n).2 (a + 0x4000) Data n
  obtain ⟨L3, h3, e3⟩ := Flash_Write_Data_log
    (Flash_Write_Data (Flash_Write_Data s a Data n).2 (a + 0x4000) Data n).2 (a + 0x8000) Data n
  unfold Write_Flash
  rw [if_pos hz']
  simp only
  refine ⟨⟨L1 ++ L2 ++ L3, ?_, ?_⟩, ?_, ?_⟩
  · rw [h3, h2, h1]; simp
  · rw [List.filter_append, List.filter_append, e1, e2, e3]; rfl
  · intro hn h0
    rw [h3]
    exact List.mem_append_left _ (Flash_Write_Data_first_program _ _ _ _ h0 hn)
  · intro hn h0
    exact Flash_Write_Data_first_program _ _ _ _ h0 hn

/-- Witness of C13 on a controller whose first erase fails with code `7`. -/
theorem replica_attempts_independent_witness :
    inZone 0x08000000 ∧
    ((∃ L, (Write_Flash (scripted [7]) 0x08000000 [0xAA] 1).log = (scripted [7]).log ++ L ∧
      L.filter isErase
        = [HalOp.erase (eraseRequest 0x08000000 1).1 (eraseRequest 0x08000000 1).2,
           HalOp.erase (eraseRequest (0x08000000 + 0x4000) 1).1
             (eraseRequest (0x08000000 + 0x4000) 1).2,
           HalOp.erase (eraseRequest (0x08000000 + 0x8000) 1).1
             (eraseRequest (0x08000000 + 0x8000) 1).2]) ∧
    (1 ≤ 1 → (Flash_Write_Data (scripted [7]) 0x08000000 [0xAA] 1).2.faults.headD 0 = 0 →
      HalOp.program (0x08000000 + 0x4000) (([0xAA] : List Nat).getD 0 0)
        ∈ (Write_Flash (scripted [7]) 0x08000000 [0xAA] 1).log) ∧
    (1 ≤ 1 →
      (Flash_Write_Data (Flash_Write_Data (scripted [7]) 0x08000000 [0xAA] 1).2
        (0x08000000 + 0x4000) [0xAA] 1).2.faults.headD 0 = 0 →
      HalOp.program (0x08000000 + 0x8000) (([0xAA] : List Nat).getD 0 0)
        ∈ (Write_Flash (scripted [7]) 0x08000000 [0xAA] 1).log)) :=
  ⟨by decide, replica_attempts_independent (scripted [7]) 0x08000000 [0xAA] 1 (by decide)⟩

/-- C14 (controller always released), evaluated on a controller that is locked
before the call. When the erase fails (code `5`) `Flash_Write_Data(0x08010000,
[0xAA], 1)` returns `5` after `unlock, erase` and no `lock`; when the erase
succeeds and the program fails (code `6`) it returns `6` after `unlock, erase,
program` and no `lock`. Both error returns leave the controller unlocked, and so
does `Write_Flash`. -/
theorem error_return_leaves_controller_unlocked :
    (scripted [5]).locked = true ∧
    (Flash_Write_Data (scripted [5]) 0x08010000 [0xAA] 1).1 = 5 ∧
    (Flash_Write_Data (scripted [5]) 0x08010000 [0xAA] 1).2.locked = false ∧
    (Flash_Write_Data (scripted [5]) 0x08010000 [0xAA] 1).2.log
      = [HalOp.unlock, HalOp.erase 4 1] ∧
    (Flash_Write_Data (scripted [0, 6]) 0x08010000 [0xAA] 1).1 = 6 ∧
    (Flash_Write_Data (scripted [0, 6]) 0x08010000 [0xAA] 1).2.locked = false ∧
    (Flash_Write_Data (scripted [0, 6]) 0x08010000 [0xAA] 1).2.log
      = [HalOp.unlock, HalOp.erase 4 1, HalOp.program 0x08010000 0xAA] ∧
    (Write_Flash (scripted [5]) 0x08010000 [0xAA] 1).locked = false := by
  decide

/-- C15 (fault propagation to the caller of write) fails at `a = 0x08000000`,
`v = [0xAA]`. On a controller that fails the erase of the second replica with code
`5`, the second call of `Flash_Write_Data` returns `5` to `Write_Flash` and the
second replica is not written (`0x08004000` keeps `0xFF`); on a fault-free
controller the three calls return `0` and the cell holds `0xAA`. `Write_Flash` is
`void`: what its caller receives is the same in both runs. -/
theorem fault_not_returned_by_Write_Flash :
    inZone 0x08000000 ∧
    (Flash_Write_Data (Flash_Write_Data (scripted [0, 0, 5]) 0x08000000 [0xAA] 1).2
      (0x08000000 + 0x4000) [0xAA] 1).1 = 5 ∧
    (Write_Flash (scripted [0, 0, 5]) 0x08000000 [0xAA] 1).mem 0x08004000 = 0xFF ∧
    (Flash_Write_Data (Flash_Write_Data blank 0x08000000 [0xAA] 1).2
      (0x08000000 + 0x4000) [0xAA] 1).1 = 0 ∧
    (Write_Flash blank 0x08000000 [0xAA] 1).mem 0x08004000 = 0xAA ∧
    Write_Flash_value (scripted [0, 0, 5]) 0x08000000 [0xAA] 1
      = Write_Flash_value blank 0x08000000 [0xAA] 1 := by
  decide

/-- C15 as amended: whenever the controller fails the erase (operation `0`) or a
byte program (operations `1` to `n`) of a call of `Flash_Write_Data`, the value
that the call returns to its caller `Write_Flash` is the one that
`HAL_FLASH_GetError` gives in the state in which the call is left; when the
controller fails none of these operations the call returns `0`. -/
theorem fault_returned_by_Flash_Write_Data (s : Ctrl) (a : Nat) (Data : List Nat) (n : Nat) :
    ((∃ j, j ≤ n ∧ s.faults.getD j 0 ≠ 0) →
      (Flash_Write_Data s a Data n).1 = HAL_FLASH_GetError (Flash_Write_Data s a Data n).2) ∧
    ((∀ j, j ≤ n → s.faults.getD j 0 = 0) → (Flash_Write_Data s a Data n).1 = 0) := by
  have hs : (HAL_FLASH_Unlock { s with calls := s.calls ++ [(a, Data, n)] }).faults = s.faults := rfl
  obtain ⟨st, _⟩ := HAL_FLASHEx_Erase_status
    (HAL_FLASH_Unlock { s with calls := s.calls ++ [(a, Data, n)] })
    (eraseRequest a n).1 (eraseRequest a n).2
  have hfa := HAL_FLASHEx_Erase_faults
    (HAL_FLASH_Unlock { s with calls := s.calls ++ [(a, Data, n)] })
    (eraseRequest a n).1 (eraseRequest a n).2
  rw [hs] at st hfa
  obtain ⟨p1, _⟩ := programLoop_result n
    (HAL_FLASHEx_Erase (HAL_FLASH_Unlock { s with calls := s.calls ++ [(a, Data, n)] })
      (eraseRequest a n).1 (eraseRequest a n).2).2 a Data 0
  rw [hfa] at p1
  have pe := programLoop_error n
    (HAL_FLASHEx_Erase (HAL_FLASH_Unlock { s with calls := s.calls ++ [(a, Data, n)] })
      (eraseRequest a n).1 (eraseRequest a n).2).2 a Data 0
  unfold Flash_Write_Data
  simp only
  by_cases hok : (HAL_FLASHEx_Erase (HAL_FLASH_Unlock { s with calls := s.calls ++ [(a, Data, n)] })
      (eraseRequest a n).1 (eraseRequest a n).2).1 = HAL_OK
  · rw [if_neg (fun c => c hok)]
    split
    · rename_i e he
      refine ⟨fun _ => pe e he, fun hall => ?_⟩
      have hnone := p1.2 (fun j hj => by rw [getD_tail]; exact hall (j + 1) (by omega))
      rw [hnone] at he
      exact absurd he (by simp)
    · rename_i he
      refine ⟨?_, fun _ => rfl⟩
      rintro ⟨j, hj, hf⟩
      exfalso
      have hall := p1.1 he
      cases j with
      | zero => exact hf (by rw [← headD_eq_getD]; exact st.1 hok)
      | succ j => exact hf (by rw [← getD_tail]; exact hall j (by omega))
  · rw [if_pos hok]
    refine ⟨fun _ => rfl, fun hall => ?_⟩
    exact absurd (st.2 (by rw [headD_eq_getD]; exact hall 0 (by omega))) hok

/-- Witness of C15 as amended: on the first controller the erase succeeds and the
program of the only byte fails; on the second one nothing fails. -/
theorem fault_returned_by_Flash_Write_Data_witness :
    ((∃ j, j ≤ 1 ∧ (scripted [0, 6]).faults.getD j 0 ≠ 0) ∧
      (Flash_Write_Data (scripted [0, 6]) 0x08010000 [0xAA] 1).1
        = HAL_FLASH_GetError (Flash_Write_Data (scripted [0, 6]) 0x08010000 [0xAA] 1).2) ∧
    ((∀ j, j ≤ 1 → blank.faults.getD j 0 = 0) ∧
      (Flash_Write_Data blank 0x08010000 [0xAA] 1).1 = 0) :=
  ⟨⟨⟨1, by decide, by decide⟩,
      (fault_returned_by_Flash_Write_Data (scripted [0, 6]) 0x08010000 [0xAA] 1).1
        ⟨1, by decide, by decide⟩⟩,
    ⟨fun j _ => by cases j <;> rfl,
      (fault_returned_by_Flash_Write_Data blank 0x08010000 [0xAA] 1).2
        (fun j _ => by cases j <;> rfl)⟩⟩

/-- C16 (colocation hazard), evaluated at `a = 0x08007FFE`, `n = 1` on a flash whose
cell `0x08004000` holds `0x55`. Both addresses lie in sector 1. `a + n = 0x08007FFF`
fails the strict test of `GetSector`, `EndSector` is `0`, and the erase request
`(1, 0)` covers no sector: the erase and the program succeed, the call returns `0`,
`0xAA` is stored at `a`, and the byte at `0x08004000`, in the sector of the written
byte and outside `[a, a+n)`, still reads `0x55`, not `0xFF`. -/
theorem colocated_byte_survives_at_sector_end :
    sectorOf 0x08007FFE = some 1 ∧ sectorOf 0x08004000 = some 1 ∧
    ¬ (0x08007FFE ≤ 0x08004000 ∧ 0x08004000 < 0x08007FFE + 1) ∧
    (corrupt blank 0x08004000 0x55).mem 0x08004000 = 0x55 ∧
    eraseRequest 0x08007FFE 1 = (1, 0) ∧
    (Flash_Write_Data (corrupt blank 0x08004000 0x55) 0x08007FFE [0xAA] 1).1 = 0 ∧
    (Flash_Write_Data (corrupt blank 0x08004000 0x55) 0x08007FFE [0xAA] 1).2.log
      = [HalOp.unlock, HalOp.erase 1 0, HalOp.program 0x08007FFE 0xAA, HalOp.lock] ∧
    (Flash_Write_Data (corrupt blank 0x08004000 0x55) 0x08007FFE [0xAA] 1).2.mem 0x08007FFE
      = 0xAA ∧
    (Flash_Write_Data (corrupt blank 0x08004000 0x55) 0x08007FFE [0xAA] 1).2.mem 0x08004000
      = 0x55 := by
  decide

/-- C17 (overwrite in place), evaluated at `a = 0x0800FFFE` (sector 3, outside the
zone), `n = 1`, `v = [0x0F]`, `w = [0xF0]` on an erased flash. `a + n = 0x0800FFFF`
fails the strict test of `GetSector`, `EndSector` is `0`, below `StartSector = 3`,
and no sector is erased by either write: the second program can only clear bits
of `0x0F`, and the read returns `0x00` instead of `0xF0`, though both calls
return `0`. -/
theorem overwrite_without_erase :
    ¬ inZone 0x0800FFFE ∧ 0x08000000 ≤ 0x0800FFFE ∧ 0x0800FFFE + 1 ≤ 0x08080000 ∧
    (Flash_Write_Data blank 0x0800FFFE [0x0F] 1).1 = 0 ∧
    (Flash_Write_Data (Write_Flash blank 0x0800FFFE [0x0F] 1) 0x0800FFFE [0xF0] 1).1 = 0 ∧
    Read_Flash (Write_Flash (Write_Flash blank 0x0800FFFE [0x0F] 1) 0x0800FFFE [0xF0] 1)
      0x0800FFFE (fun _ => 0) 1 0 = 0x00 := by
  decide

/-- C18 (no program without prior erase), evaluated at `a = 0x08007FFE`, `n = 1`. The
byte lies in sector 1; `a + n = 0x08007FFF` fails the strict test of `GetSector`,
`EndSector` is `0`, and the requests of the call are `unlock`, an erase of
`NbSectors = 0` sectors from sector 1, the program of `0x08007FFE`, `lock`: the
programmed byte is in no erased sector. -/
theorem program_without_erase :
    0x08000000 ≤ 0x08007FFE ∧ 0x08007FFE + 1 ≤ 0x08080000 ∧
    sectorOf 0x08007FFE = some 1 ∧
    (Flash_Write_Data blank 0x08007FFE [0xAA] 1).2.log
      = [HalOp.unlock, HalOp.erase 1 0, HalOp.program 0x08007FFE 0xAA, HalOp.lock] ∧
    erasedBy 1 0 0x08007FFE = false := by
  decide

/-- C19 (voting rule): for every flash content, the first bytes of the three
candidate buffers are the bytes stored at `Address`, `Address + 0x4000` and
`Address + 0x8000`, and `Check_Redundancy` leaves in `RxDef` the whole candidate
buffer of replica 1 (the `sizeof` bytes read from `Address`) when the first byte
of replica 1 equals that of replica 2 or of replica 3, otherwise the whole
candidate buffer of replica 2 when the first bytes of replicas 2 and 3 are
equal, otherwise the first byte of replica 1 alone; the choice is a function of
the three first bytes. -/
theorem voting_rule (mem : Nat → Nat) (Address : Nat) (RxBuf1 RxBuf2 RxBuf3 RxDef : Buf)
    (hA : Address < 2 ^ 32) :
    (Check_Redundancy mem Address RxBuf1 RxBuf2 RxBuf3 RxDef).1 0 = mem Address ∧
    (Check_Redundancy mem Address RxBuf1 RxBuf2 RxBuf3 RxDef).2.1 0 = mem (u32 (Address + 0x4000)) ∧
    (Check_Redundancy mem Address RxBuf1 RxBuf2 RxBuf3 RxDef).2.2.1 0
      = mem (u32 (Address + 0x8000)) ∧
    (Check_Redundancy mem Address RxBuf1 RxBuf2 RxBuf3 RxDef).2.2.2
      = if mem Address = mem (u32 (Address + 0x4000)) ∨ mem Address = mem (u32 (Address + 0x8000))
        then fun i =>
          if i < SIZEOF_PTR then (Check_Redundancy mem Address RxBuf1 RxBuf2 RxBuf3 RxDef).1 i
          else RxDef i
        else if mem (u32 (Address + 0x4000)) = mem (u32 (Address + 0x8000)) then fun i =>
          if i < SIZEOF_PTR then (Check_Redundancy mem Address RxBuf1 RxBuf2 RxBuf3 RxDef).2.1 i
          else RxDef i
        else fun i => if i = 0 then mem Address else RxDef i := by
  have e0 : u32 (Address + 0) = Address := by rw [Nat.add_zero, u32_of_lt hA]
  have e1 : u32 (u32 (Address + 0x4000) + 0) = u32 (Address + 0x4000) := by
    rw [Nat.add_zero, u32_of_lt (u32_lt _)]
  have e2 : u32 (u32 (Address + 0x8000) + 0) = u32 (Address + 0x8000) := by
    rw [Nat.add_zero, u32_of_lt (u32_lt _)]
  rw [Check_Redundancy_eq mem Address RxBuf1 RxBuf2 RxBuf3 RxDef hA]
  refine ⟨?_, ?_, ?_, ?_⟩
  · show (if 0 < 4 then mem (u32 (Address + 0)) else RxBuf1 0) = _
    rw [if_pos (by omega), e0]
  · show (if 0 < 4 then mem (u32 (u32 (Address + 0x4000) + 0)) else RxBuf2 0) = _
    rw [if_pos (by omega), e1]
  · show (if 0 < 4 then mem (u32 (u32 (Address + 0x8000) + 0)) else RxBuf3 0) = _
    rw [if_pos (by omega), e2]
  · simp only [SIZEOF_PTR]
    split_ifs
    · funext i; split_ifs <;> rfl
    · funext i; split_ifs <;> rfl
    · rfl

/-- Witness of C19 on a flash whose first replica differs from the two others. -/
theorem voting_rule_witness :
    0x08000000 < 2 ^ 32 ∧
    ((Check_Redundancy (corrupt blank 0x08000000 1).mem 0x08000000 (fun _ => 0) (fun _ => 0) (fun _ => 0) (fun _ => 0)).1 0
        = (corrupt blank 0x08000000 1).mem 0x08000000 ∧
    (Check_Redundancy (corrupt blank 0x08000000 1).mem 0x08000000 (fun _ => 0) (fun _ => 0) (fun _ => 0) (fun _ => 0)).2.1 0
        = (corrupt blank 0x08000000 1).mem (u32 (0x08000000 + 0x4000)) ∧
    (Check_Redundancy (corrupt blank 0x08000000 1).mem 0x08000000 (fun _ => 0) (fun _ => 0) (fun _ => 0)
        (fun _ => 0)).2.2.1 0
      = (corrupt blank 0x08000000 1).mem (u32 (0x08000000 + 0x8000)) ∧
    (Check_Redundancy (corrupt blank 0x08000000 1).mem 0x08000000 (fun _ => 0) (fun _ => 0) (fun _ => 0)
        (fun _ => 0)).2.2.2
      = if (corrupt blank 0x08000000 1).mem 0x08000000 = (corrupt blank 0x08000000 1).mem (u32 (0x08000000 + 0x4000)) ∨
            (corrupt blank 0x08000000 1).mem 0x08000000 = (corrupt blank 0x08000000 1).mem (u32 (0x08000000 + 0x8000))
        then fun i =>
          if i < SIZEOF_PTR then
            (Check_Redundancy (corrupt blank 0x08000000 1).mem 0x08000000 (fun _ => 0) (fun _ => 0) (fun _ => 0)
              (fun _ => 0)).1 i
          else (fun _ => 0) i
        else if (corrupt blank 0x08000000 1).mem (u32 (0x08000000 + 0x4000)) = (corrupt blank 0x08000000 1).mem (u32 (0x08000000 + 0x8000))
        then fun i =>
          if i < SIZEOF_PTR then
            (Check_Redundancy (corrupt blank 0x08000000 1).mem 0x08000000 (fun _ => 0) (fun _ => 0) (fun _ => 0)
              (fun _ => 0)).2.1 i
          else (fun _ => 0) i
        else fun i => if i = 0 then (corrupt blank 0x08000000 1).mem 0x08000000 else (fun _ => 0) i) :=
  ⟨by decide, voting_rule (corrupt blank 0x08000000 1).mem 0x08000000 (fun _ => 0) (fun _ => 0) (fun _ => 0) (fun _ => 0)
    (by decide)⟩

/-- C20 (two-of-three majority on whole values), evaluated on a flash where the
replicas at `0x08004000` and `0x08008000` hold `[1, 2, 3, 4]` and the replica at
`0x08000000` holds `[1, 9, 3, 4]`: two of the three buffers are equal as a whole,
yet `Check_Redundancy` compares first bytes only, finds replica 1 in agreement
with replica 2, and stores `[1, 9, 3, 4]` in `RxDef`. -/
theorem vote_misses_whole_buffer_majority :
    (List.range 4).map (Check_Redundancy
      (corrupt (Write_Flash blank 0x08000000 [1, 2, 3, 4] 4) 0x08000001 9).mem
      0x08000000 (fun _ => 0) (fun _ => 0) (fun _ => 0) (fun _ => 0)).1 = [1, 9, 3, 4] ∧
    (List.range 4).map (Check_Redundancy
      (corrupt (Write_Flash blank 0x08000000 [1, 2, 3, 4] 4) 0x08000001 9).mem
      0x08000000 (fun _ => 0) (fun _ => 0) (fun _ => 0) (fun _ => 0)).2.1 = [1, 2, 3, 4] ∧
    (List.range 4).map (Check_Redundancy
      (corrupt (Write_Flash blank 0x08000000 [1, 2, 3, 4] 4) 0x08000001 9).mem
      0x08000000 (fun _ => 0) (fun _ => 0) (fun _ => 0) (fun _ => 0)).2.2.1 = [1, 2, 3, 4] ∧
    (List.range 4).map (Check_Redundancy
      (corrupt (Write_Flash blank 0x08000000 [1, 2, 3, 4] 4) 0x08000001 9).mem
      0x08000000 (fun _ => 0) (fun _ => 0) (fun _ => 0) (fun _ => 0)).2.2.2 = [1, 9, 3, 4] := by
  decide

/-! ## Lemmas on loops of byte programs that fail -/

theorem programRequests_succ (a : Nat) (Data : List Nat) (sofar m : Nat) (ha : a < 2 ^ 32) :
    programRequests a Data sofar (m + 1)
      = HalOp.program a (Data.getD sofar 0) :: programRequests (u32 (a + 1)) Data (sofar + 1) m := by
  unfold programRequests
  rw [List.range_succ_eq_map, List.map_cons, List.map_map]
  rw [Nat.add_zero, Nat.add_zero, u32_of_lt ha]
  congr 1
  apply List.map_congr_left
  intro i _
  show HalOp.program (u32 (a + (i + 1))) (Data.getD (sofar + (i + 1)) 0) = _
  rw [u32_succ_add, Nat.add_assoc sofar 1 i, Nat.add_comm 1 i]

theorem HAL_FLASH_Program_err (s : Ctrl) (a d : Nat) (h : s.faults.headD 0 = 0) :
    (HAL_FLASH_Program s a d).2.err = s.err ∧
    (HAL_FLASH_Program s a d).2.mem a = s.mem a &&& (d % 256) := by
  unfold HAL_FLASH_Program HAL_OK
  simp only
  rw [if_pos h]
  simp

theorem HAL_FLASH_Program_fail_mem (s : Ctrl) (a d : Nat) (h : s.faults.headD 0 ≠ 0) :
    (HAL_FLASH_Program s a d).2.mem = s.mem := by
  unfold HAL_FLASH_Program HAL_OK
  simp only
  rw [if_neg h]

/-- The loop of byte programs when the controller answers `HAL_OK` to the first `k`
programs and fails the next one: it returns the error code after `k + 1`
requests and leaves alone every byte that is not among the first `k`. -/
theorem programLoop_fail_at : ∀ (k m : Nat) (s : Ctrl) (a : Nat) (Data : List Nat) (sofar : Nat),
    a < 2 ^ 32 → (∀ j, j < k → s.faults.getD j 0 = 0) → s.faults.getD k 0 ≠ 0 →
    (programLoop (k + 1 + m) s a Data sofar).1 = some (s.faults.getD k 0) ∧
    HAL_FLASH_GetError (programLoop (k + 1 + m) s a Data sofar).2 = s.faults.getD k 0 ∧
    (programLoop (k + 1 + m) s a Data sofar).2.log
      = s.log ++ programRequests a Data sofar (k + 1) ∧
    (∀ x, (∀ i, i < k → x ≠ u32 (a + i)) →
      (programLoop (k + 1 + m) s a Data sofar).2.mem x = s.mem x) := by
  intro k
  induction k with
  | zero =>
    intro m s a Data sofar ha _ hf
    rw [← headD_eq_getD] at hf
    obtain ⟨st, se⟩ := HAL_FLASH_Program_status s a (Data.getD sofar 0)
    have hne : ¬ (HAL_FLASH_Program s a (Data.getD sofar 0)).1 = HAL_OK := fun c => hf (st.1 c)
    have e : 0 + 1 + m = m + 1 := by omega
    rw [e, programLoop, if_neg hne, ← headD_eq_getD]
    refine ⟨by rw [se hf], se hf, ?_, ?_⟩
    · show (HAL_FLASH_Program s a (Data.getD sofar 0)).2.log = _
      rw [HAL_FLASH_Program_log, programRequests_succ _ _ _ _ ha]
      rfl
    · intro x _
      show (HAL_FLASH_Program s a (Data.getD sofar 0)).2.mem x = _
      rw [HAL_FLASH_Program_fail_mem s a _ hf]
  | succ k ih =>
    intro m s a Data sofar ha hok hf
    have h0 : s.faults.headD 0 = 0 := by rw [headD_eq_getD]; exact hok 0 (by omega)
    obtain ⟨st, _⟩ := HAL_FLASH_Program_status s a (Data.getD sofar 0)
    have hft := HAL_FLASH_Program_faults s a (Data.getD sofar 0)
    have e : k + 1 + 1 + m = (k + 1 + m) + 1 := by omega
    obtain ⟨i1, i2, i3, i4⟩ := ih m (HAL_FLASH_Program s a (Data.getD sofar 0)).2 (u32 (a + 1)) Data
      (sofar + 1) (u32_lt _)
      (fun j hj => by rw [hft, getD_tail]; exact hok (j + 1) (by omega))
      (by rw [hft, getD_tail]; exact hf)
    rw [hft, getD_tail] at i1 i2
    rw [e, programLoop, if_pos (st.2 h0)]
    refine ⟨i1, i2, ?_, ?_⟩
    · rw [i3, HAL_FLASH_Program_log, programRequests_succ a Data sofar (k + 1) ha,
        List.append_assoc]
      rfl
    · intro x hx
      have hxa : x ≠ a := by
        have := hx 0 (by omega)
        rwa [Nat.add_zero, u32_of_lt ha] at this
      rw [i4 x (fun i hi => by rw [u32_succ_add]; exact hx (i + 1) (by omega))]
      exact HAL_FLASH_Program_mem s a _ x hxa

/-- The requests of a loop in which no program fails. -/
theorem programLoop_log_ok : ∀ (k : Nat) (s : Ctrl) (a : Nat) (Data : List Nat) (sofar : Nat),
    a < 2 ^ 32 → (∀ j, j < k → s.faults.getD j 0 = 0) →
    (programLoop k s a Data sofar).2.log = s.log ++ programRequests a Data sofar k := by
  intro k
  induction k with
  | zero =>
    intro s a Data sofar _ _
    simp [programLoop, programRequests]
  | succ k ih =>
    intro s a Data sofar ha hok
    have h0 : s.faults.headD 0 = 0 := by rw [headD_eq_getD]; exact hok 0 (by omega)
    obtain ⟨st, _⟩ := HAL_FLASH_Program_status s a (Data.getD sofar 0)
    have hft := HAL_FLASH_Program_faults s a (Data.getD sofar 0)
    rw [programLoop, if_pos (st.2 h0),
      ih _ _ _ _ (u32_lt _) (fun j hj => by rw [hft, getD_tail]; exact hok (j + 1) (by omega)),
      HAL_FLASH_Program_log, programRequests_succ a Data sofar k ha, List.append_assoc]
    rfl

/-- A byte whose program and all earlier programs succeed holds its former content
with the bits of the data byte cleared, whatever happens to later programs. -/
theorem programLoop_cell : ∀ (K : Nat) (s : Ctrl) (a : Nat) (Data : List Nat) (sofar i : Nat),
    a < 2 ^ 32 → K ≤ 2 ^ 32 → i < K → (∀ j, j ≤ i → s.faults.getD j 0 = 0) →
    (programLoop K s a Data sofar).2.mem (u32 (a + i))
      = s.mem (u32 (a + i)) &&& (Data.getD (sofar + i) 0 % 256) := by
  intro K
  induction K with
  | zero => intro s a Data sofar i _ _ hi; omega
  | succ K ih =>
    intro s a Data sofar i ha hK hi hok
    have h0 : s.faults.headD 0 = 0 := by rw [headD_eq_getD]; exact hok 0 (by omega)
    obtain ⟨st, _⟩ := HAL_FLASH_Program_status s a (Data.getD sofar 0)
    have hft := HAL_FLASH_Program_faults s a (Data.getD sofar 0)
    rw [programLoop, if_pos (st.2 h0)]
    cases i with
    | zero =>
      simp only [Nat.add_zero, u32_of_lt ha]
      rw [programLoop_frame K _ (u32 (a + 1)) Data (sofar + 1) a (u32_lt _)
        (fun j hj => by unfold u32; omega)]
      exact (HAL_FLASH_Program_err s a _ h0).2
    | succ i =>
      have e1 : u32 (a + (i + 1)) = u32 (u32 (a + 1) + i) := (u32_succ_add a i).symm
      have e2 : sofar + (i + 1) = sofar + 1 + i := by omega
      rw [e1, e2, ih _ (u32 (a + 1)) Data (sofar + 1) i (u32_lt _) (by omega) (by omega)
        (fun j hj => by rw [hft, getD_tail]; exact hok (j + 1) (by omega))]
      rw [HAL_FLASH_Program_mem s a _ _ (by rw [← e1]; unfold u32; omega)]

theorem HAL_FLASHEx_Erase_fail (s : Ctrl) (S N : Nat) (h : s.faults.headD 0 ≠ 0) :
    (HAL_FLASHEx_Erase s S N).1 ≠ HAL_OK ∧ (HAL_FLASHEx_Erase s S N).2.mem = s.mem := by
  unfold HAL_FLASHEx_Erase HAL_OK
  simp only
  rw [if_neg h]
  exact ⟨Nat.one_ne_zero, rfl⟩

theorem HAL_FLASHEx_Erase_keeps (s : Ctrl) (S N x : Nat) (hx : erasedBy S N x = false) :
    (HAL_FLASHEx_Erase s S N).2.mem x = s.mem x := by
  unfold HAL_FLASHEx_Erase
  simp only
  split_ifs
  · show (if erasedBy S N x = true then 0xFF else s.mem x) = s.mem x
    rw [hx]
    rfl
  · rfl

theorem afterErase_log (s : Ctrl) (a : Nat) (Data : List Nat) (n : Nat) :
    (afterErase s a Data n).log
      = s.log ++ [HalOp.unlock, HalOp.erase (eraseRequest a n).1 (eraseRequest a n).2] := by
  unfold afterErase
  rw [HAL_FLASHEx_Erase_log]
  show s.log ++ [HalOp.unlock] ++ _ = _
  rw [List.append_assoc]
  rfl

theorem afterErase_faults (s : Ctrl) (a : Nat) (Data : List Nat) (n : Nat) :
    (afterErase s a Data n).faults = s.faults.tail := by
  unfold afterErase
  rw [HAL_FLASHEx_Erase_faults]
  rfl

/-- `Flash_Write_Data` once the erase has succeeded: the outcome of the loop of byte
programs, followed by the lock when the loop ran to its end. -/
theorem Flash_Write_Data_after_erase (s : Ctrl) (a : Nat) (Data : List Nat) (n : Nat)
    (h0 : s.faults.headD 0 = 0) :
    Flash_Write_Data s a Data n
      = match (programLoop n (afterErase s a Data n) a Data 0).1 with
        | some e => (e, (programLoop n (afterErase s a Data n) a Data 0).2)
        | none => (0, HAL_FLASH_Lock (programLoop n (afterErase s a Data n) a Data 0).2) := by
  have hok := (HAL_FLASHEx_Erase_status
    (HAL_FLASH_Unlock { s with calls := s.calls ++ [(a, Data, n)] })
    (eraseRequest a n).1 (eraseRequest a n).2).1.2 h0
  unfold Flash_Write_Data afterErase
  simp only
  rw [if_neg (fun c => c hok)]

theorem afterErase_mem (s : Ctrl) (a : Nat) (Data : List Nat) (n : Nat)
    (h0 : s.faults.headD 0 = 0) :
    (afterErase s a Data n).mem = erasedMem s.mem (eraseRequest a n).1 (eraseRequest a n).2 := by
  unfold afterErase
  exact HAL_FLASHEx_Erase_mem
    (HAL_FLASH_Unlock { s with calls := s.calls ++ [(a, Data, n)] }) _ _ h0

/-- A flash byte that is neither in a sector of the erase request nor in `[a, a+n)`
keeps its content through `Flash_Write_Data`, whatever the controller answers. -/
theorem Flash_Write_Data_frame (s : Ctrl) (a : Nat) (Data : List Nat) (n x : Nat)
    (ha : a < 2 ^ 32) (hn : n ≤ 65535) (hx : 0x08000000 ≤ x ∧ x ≤ 0x0807FFFF)
    (hne : erasedBy (eraseRequest a n).1 (eraseRequest a n).2 x = false)
    (hout : ¬ (a ≤ x ∧ x < a + n)) :
    (Flash_Write_Data s a Data n).2.mem x = s.mem x := by
  have hno : ∀ j, j < n → x ≠ u32 (a + j) := by
    intro j hj
    unfold u32
    omega
  have hk : (afterErase s a Data n).mem x = s.mem x := by
    unfold afterErase
    rw [HAL_FLASHEx_Erase_keeps _ _ _ x hne]
    rfl
  have hp := programLoop_frame n (afterErase s a Data n) a Data 0 x ha hno
  rw [hk] at hp
  by_cases h0 : s.faults.headD 0 = 0
  · rw [Flash_Write_Data_after_erase s a Data n h0]
    split
    · exact hp
    · exact hp
  · have hf := (HAL_FLASHEx_Erase_fail
      (HAL_FLASH_Unlock { s with calls := s.calls ++ [(a, Data, n)] })
      (eraseRequest a n).1 (eraseRequest a n).2 h0).1
    unfold Flash_Write_Data
    simp only
    rw [if_pos hf]
    exact hk

/-! ## Lemmas on the camera payload -/

theorem toRead_small (fl : Nat) (h2 : fl < 2 ^ 31) :
    min (toInt bSize) (toInt fl) = ((chunk fl : Nat) : Int) := by
  unfold min toInt bSize chunk
  have e1 : (128 % 2 ^ 32 < 2 ^ 31) := by decide
  have e2 : fl % 2 ^ 32 = fl := Nat.mod_eq_of_lt (by omega)
  rw [if_pos e1, e2, if_pos h2]
  split_ifs <;> omega

theorem retrieveStep_small (db : Buf) (c : Cam) (h2 : c.frameLength < 2 ^ 31) :
    (retrieveStep db c).frameLength = c.frameLength - chunk c.frameLength ∧
    (retrieveStep db c).framePointer = (c.framePointer + chunk c.frameLength) % 65536 ∧
    (retrieveStep db c).trace
      = c.trace ++ [(c.frameLength, c.framePointer, ((chunk c.frameLength : Nat) : Int))] := by
  have ht := toRead_small c.frameLength h2
  have hc : chunk c.frameLength ≤ c.frameLength := by unfold chunk; split_ifs <;> omega
  unfold retrieveStep
  simp only [ht]
  refine ⟨?_, ?_, trivial⟩
  · omega
  · omega

/-- The loop of `retrieveImage` entered with `frameLength < 2^31`: it is left after
`⌈frameLength / 128⌉` iterations, each of which takes between 1 and 128 bytes and
no more than what is left. -/
theorem retrieveLoop_small (rx : Nat → Buf) : ∀ (fuel : Nat) (c : Cam),
    c.frameLength ≤ fuel → c.frameLength < 2 ^ 31 → c.framePointer < 65536 →
    ∃ c', retrieveLoop fuel rx c = some c' ∧ c'.frameLength = 0 ∧
      c'.framePointer = (c.framePointer + c.frameLength) % 65536 ∧
      ∃ T, c'.trace = c.trace ++ T ∧ T.length = (c.frameLength + 127) / 128 ∧
        ∀ e ∈ T, 1 ≤ e.2.2 ∧ e.2.2 ≤ 128 ∧ e.2.2 ≤ (e.1 : Int) ∧
          e.2.1 + e.1 ≤ c.framePointer + c.frameLength := by
  intro fuel
  induction fuel with
  | zero =>
    intro c h1 _ h3
    have h0 : c.frameLength = 0 := by omega
    refine ⟨c, ?_, h0, ?_, [], by simp, by simp [h0], by simp⟩
    · rw [retrieveLoop, if_neg (by omega)]
    · rw [h0, Nat.add_zero, Nat.mod_eq_of_lt h3]
  | succ fuel ih =>
    intro c h1 h2 h3
    by_cases h0 : c.frameLength = 0
    · refine ⟨c, ?_, h0, ?_, [], by simp, by simp [h0], by simp⟩
      · rw [retrieveLoop, if_neg (by omega)]
      · rw [h0, Nat.add_zero, Nat.mod_eq_of_lt h3]
    · obtain ⟨s1, s2, s3⟩ := retrieveStep_small (rx c.trace.length) c h2
      have hc1 : 1 ≤ chunk c.frameLength := by unfold chunk; split_ifs <;> omega
      have hc2 : chunk c.frameLength ≤ 128 := by unfold chunk; split_ifs <;> omega
      have hc3 : chunk c.frameLength ≤ c.frameLength := by unfold chunk; split_ifs <;> omega
      have hlen : 1 + (c.frameLength - chunk c.frameLength + 127) / 128
          = (c.frameLength + 127) / 128 := by unfold chunk; split_ifs <;> omega
      obtain ⟨c', r1, r2, r3, T, t1, t2, t3⟩ := ih (retrieveStep (rx c.trace.length) c)
        (by rw [s1]; omega) (by rw [s1]; omega) (by rw [s2]; omega)
      simp only [s1, s2] at r3 t2 t3
      rw [s3] at t1
      refine ⟨c', ?_, r2, ?_, (c.frameLength, c.framePointer, ((chunk c.frameLength : Nat) : Int)) :: T,
        ?_, ?_, ?_⟩
      · rw [retrieveLoop, if_pos (by omega)]
        exact r1
      · rw [r3]; omega
      · rw [t1, List.append_assoc]; rfl
      · rw [List.length_cons, t2]; omega
      · intro e he
        rcases List.mem_cons.1 he with rfl | he
        · refine ⟨?_, ?_, ?_, ?_⟩
          · show (1 : Int) ≤ ((chunk c.frameLength : Nat) : Int)
            omega
          · show ((chunk c.frameLength : Nat) : Int) ≤ 128
            omega
          · show ((chunk c.frameLength : Nat) : Int) ≤ (c.frameLength : Int)
            omega
          · exact Nat.le_refl _
        · obtain ⟨q1, q2, q3, q4⟩ := t3 e he
          refine ⟨q1, q2, q3, ?_⟩
          omega

theorem getD_lt (l : List Nat) (h : ∀ b ∈ l, b < 256) (i : Nat) : l.getD i 0 < 256 := by
  by_cases hi : i < l.length
  · rw [List.getD_eq_getElem l 0 hi]
    exact h _ (List.getElem_mem hi)
  · rw [List.getD_eq_default l 0 (by omega)]
    omega

theorem shl_or_byte (x y : Nat) (hx : x < 2 ^ 24) (hy : y < 256) :
    u32 (x <<< 8) ||| y = x * 256 + y := by
  have h1 : x <<< 8 = 2 ^ 8 * x := by rw [Nat.shiftLeft_eq, Nat.mul_comm]
  have h2 : u32 (2 ^ 8 * x) = 2 ^ 8 * x := u32_of_lt (by omega)
  have h3 := Nat.mul_add_lt_is_or (i := 8) (b := y) (by omega) x
  rw [h1, h2, ← h3]
  omega

/-- The loop of `retrieveImage` is left for every `frameLength` below `2^31`, and the
function then calls `Flash_Write_Data` once, with the size of `dataVect` reduced
to `uint16_t`. -/
theorem retrieveImage_eq (rx : Nat → Buf) (P L fp : Nat) (s : Ctrl)
    (hL : L < 2 ^ 31) (hfp : fp < 65536) :
    ∃ c, retrieveLoop L rx ⟨L, fp, fun _ => 0, []⟩ = some c ∧
      retrieveImage rx P L fp s
        = some (c, Flash_Write_Data s P ((List.range L).map c.dataVect) (u16 L)) := by
  obtain ⟨c, hc, _⟩ := retrieveLoop_small rx L ⟨L, fp, fun _ => 0, []⟩ (Nat.le_refl _) hL hfp
  refine ⟨c, hc, ?_⟩
  unfold retrieveImage
  simp only [hc]

/-! ## Sector order, aborted writes and the write frame -/

/-- C21 (sector order), evaluated at `a = 0x08004000 ≤ b = 0x08007FFF`, both in the
flash: `GetSector(a)` is `1`, and `b`, the last byte of sector 1, passes no range
test, so `GetSector(b)` is `0`: the function is not monotone and its ranges do
not cover the flash. -/
theorem GetSector_not_monotone :
    0x08000000 ≤ 0x08004000 ∧ 0x08004000 ≤ 0x08007FFF ∧ 0x08007FFF ≤ 0x0807FFFF ∧
    GetSector 0x08004000 = 1 ∧ GetSector 0x08007FFF = 0 := by
  decide

/-- C22 (erase failure aborts): when the controller fails the erase,
`Flash_Write_Data` returns the error code of the controller, which is the value of
`HAL_FLASH_GetError` at that point, leaves the flash as the failed erase left it,
and has issued, after the unlock, exactly one erase request and no program. -/
theorem erase_failure_aborts (s : Ctrl) (a : Nat) (Data : List Nat) (n : Nat)
    (h : s.faults.headD 0 ≠ 0) :
    (Flash_Write_Data s a Data n).1 = s.faults.headD 0 ∧
    (Flash_Write_Data s a Data n).1 = HAL_FLASH_GetError (Flash_Write_Data s a Data n).2 ∧
    (Flash_Write_Data s a Data n).2.mem = s.mem ∧
    (Flash_Write_Data s a Data n).2.log
      = s.log ++ [HalOp.unlock, HalOp.erase (eraseRequest a n).1 (eraseRequest a n).2] := by
  obtain ⟨hf, hm⟩ := HAL_FLASHEx_Erase_fail
    (HAL_FLASH_Unlock { s with calls := s.calls ++ [(a, Data, n)] })
    (eraseRequest a n).1 (eraseRequest a n).2 h
  have he := (HAL_FLASHEx_Erase_status
    (HAL_FLASH_Unlock { s with calls := s.calls ++ [(a, Data, n)] })
    (eraseRequest a n).1 (eraseRequest a n).2).2 h
  have hl := afterErase_log s a Data n
  unfold afterErase at hl
  unfold Flash_Write_Data
  simp only
  rw [if_pos hf]
  exact ⟨he, rfl, hm, hl⟩

/-- Witness of C22 on a controller whose erase fails with code `5`. -/
theorem erase_failure_aborts_witness :
    (scripted [5]).faults.headD 0 ≠ 0 ∧
    ((Flash_Write_Data (scripted [5]) 0x08010000 [0xAA] 1).1 = (scripted [5]).faults.headD 0 ∧
    (Flash_Write_Data (scripted [5]) 0x08010000 [0xAA] 1).1
      = HAL_FLASH_GetError (Flash_Write_Data (scripted [5]) 0x08010000 [0xAA] 1).2 ∧
    (Flash_Write_Data (scripted [5]) 0x08010000 [0xAA] 1).2.mem = (scripted [5]).mem ∧
    (Flash_Write_Data (scripted [5]) 0x08010000 [0xAA] 1).2.log
      = (scripted [5]).log
        ++ [HalOp.unlock, HalOp.erase (eraseRequest 0x08010000 1).1 (eraseRequest 0x08010000 1).2]) :=
  ⟨by decide, erase_failure_aborts (scripted [5]) 0x08010000 [0xAA] 1 (by decide)⟩

/-- C23 (program failure aborts): after a successful erase, when the first failing
byte program is the one of index `k < n`, `Flash_Write_Data` returns the error
code of the controller, has issued the program requests of the indices `0` to `k`
in increasing order at `StartSectorAddress + i` and nothing after the failing
one, and has programmed exactly the bytes of the indices `i < k`; when no program
fails it returns `0` after the `n` program requests at consecutive addresses and
the lock, all `n` bytes programmed. Programming a byte clears in the erased cell
the bits that are clear in `Data[i]`. -/
theorem program_failure_aborts (s : Ctrl) (a : Nat) (Data : List Nat) (n : Nat)
    (ha : a < 2 ^ 32) (hn : n ≤ 65535) (he : s.faults.getD 0 0 = 0) :
    (∀ k, k < n → (∀ j, j < k → s.faults.getD (j + 1) 0 = 0) → s.faults.getD (k + 1) 0 ≠ 0 →
      (Flash_Write_Data s a Data n).1 = s.faults.getD (k + 1) 0 ∧
      (Flash_Write_Data s a Data n).1 = HAL_FLASH_GetError (Flash_Write_Data s a Data n).2 ∧
      (Flash_Write_Data s a Data n).2.log
        = s.log ++ [HalOp.unlock, HalOp.erase (eraseRequest a n).1 (eraseRequest a n).2]
          ++ programRequests a Data 0 (k + 1) ∧
      (∀ i, i < k → (Flash_Write_Data s a Data n).2.mem (u32 (a + i))
        = erasedMem s.mem (eraseRequest a n).1 (eraseRequest a n).2 (u32 (a + i))
          &&& (Data.getD i 0 % 256)) ∧
      (∀ x, (∀ i, i < k → x ≠ u32 (a + i)) → (Flash_Write_Data s a Data n).2.mem x
        = erasedMem s.mem (eraseRequest a n).1 (eraseRequest a n).2 x)) ∧
    ((∀ j, j < n → s.faults.getD (j + 1) 0 = 0) →
      (Flash_Write_Data s a Data n).1 = 0 ∧
      (Flash_Write_Data s a Data n).2.log
        = s.log ++ [HalOp.unlock, HalOp.erase (eraseRequest a n).1 (eraseRequest a n).2]
          ++ programRequests a Data 0 n ++ [HalOp.lock] ∧
      (∀ i, i < n → (Flash_Write_Data s a Data n).2.mem (u32 (a + i))
        = erasedMem s.mem (eraseRequest a n).1 (eraseRequest a n).2 (u32 (a + i))
          &&& (Data.getD i 0 % 256)) ∧
      (∀ x, (∀ i, i < n → x ≠ u32 (a + i)) → (Flash_Write_Data s a Data n).2.mem x
        = erasedMem s.mem (eraseRequest a n).1 (eraseRequest a n).2 x)) := by
  have h0 : s.faults.headD 0 = 0 := by rw [headD_eq_getD]; exact he
  have hF := Flash_Write_Data_after_erase s a Data n h0
  have hf := afterErase_faults s a Data n
  have hl := afterErase_log s a Data n
  have hm := afterErase_mem s a Data n h0
  constructor
  · intro k hk hok hfail
    obtain ⟨m, rfl⟩ : ∃ m, n = k + 1 + m := ⟨n - (k + 1), by omega⟩
    obtain ⟨p1, p2, p3, p4⟩ := programLoop_fail_at k m (afterErase s a Data (k + 1 + m)) a Data 0 ha
      (fun j hj => by rw [hf, getD_tail]; exact hok j hj)
      (by rw [hf, getD_tail]; exact hfail)
    rw [hf, getD_tail] at p1 p2
    rw [hl] at p3
    rw [hF, p1]
    refine ⟨rfl, p2.symm, p3, ?_, ?_⟩
    · intro i hi
      have hc := programLoop_cell (k + 1 + m) (afterErase s a Data (k + 1 + m)) a Data 0 i ha
        (by omega) (by omega)
        (fun j hj => by rw [hf, getD_tail]; exact hok j (by omega))
      rw [Nat.zero_add, hm] at hc
      exact hc
    · intro x hx
      have := p4 x hx
      rw [hm] at this
      exact this
  · intro hok
    have hnone := ((programLoop_result n (afterErase s a Data n) a Data 0).1).2
      (fun j hj => by rw [hf, getD_tail]; exact hok j hj)
    have hlog := programLoop_log_ok n (afterErase s a Data n) a Data 0 ha
      (fun j hj => by rw [hf, getD_tail]; exact hok j hj)
    rw [hl] at hlog
    rw [hF, hnone]
    refine ⟨rfl, ?_, ?_, ?_⟩
    · show (programLoop n (afterErase s a Data n) a Data 0).2.log ++ [HalOp.lock] = _
      rw [hlog]
    · intro i hi
      have hc := programLoop_cell n (afterErase s a Data n) a Data 0 i ha
        (by omega) hi
        (fun j hj => by rw [hf, getD_tail]; exact hok j (by omega))
      rw [Nat.zero_add, hm] at hc
      exact hc
    · intro x hx
      have := programLoop_frame n (afterErase s a Data n) a Data 0 x ha hx
      rw [hm] at this
      exact this

/-- Witness of C23 on a controller whose erase and first program succeed and whose
second program fails with code `9`, for three bytes at `0x08010000`. -/
theorem program_failure_aborts_witness :
    (0x08010000 < 2 ^ 32 ∧ 3 ≤ 65535 ∧ (scripted [0, 0, 9]).faults.getD 0 0 = 0) ∧
    ((∀ k, k < 3 → (∀ j, j < k → (scripted [0, 0, 9]).faults.getD (j + 1) 0 = 0) → (scripted [0, 0, 9]).faults.getD (k + 1) 0 ≠ 0 →
      (Flash_Write_Data (scripted [0, 0, 9]) 0x08010000 [1, 2, 3] 3).1 = (scripted [0, 0, 9]).faults.getD (k + 1) 0 ∧
      (Flash_Write_Data (scripted [0, 0, 9]) 0x08010000 [1, 2, 3] 3).1 = HAL_FLASH_GetError (Flash_Write_Data (scripted [0, 0, 9]) 0x08010000 [1, 2, 3] 3).2 ∧
      (Flash_Write_Data (scripted [0, 0, 9]) 0x08010000 [1, 2, 3] 3).2.log
        = (scripted [0, 0, 9]).log ++ [HalOp.unlock, HalOp.erase (eraseRequest 0x08010000 3).1 (eraseRequest 0x08010000 3).2]
          ++ programRequests 0x08010000 [1, 2, 3] 0 (k + 1) ∧
      (∀ i, i < k → (Flash_Write_Data (scripted [0, 0, 9]) 0x08010000 [1, 2, 3] 3).2.mem (u32 (0x08010000 + i))
        = erasedMem (scripted [0, 0, 9]).mem (eraseRequest 0x08010000 3).1 (eraseRequest 0x08010000 3).2 (u32 (0x08010000 + i))
          &&& (([1, 2, 3] : List Nat).getD i 0 % 256)) ∧
      (∀ x, (∀ i, i < k → x ≠ u32 (0x08010000 + i)) → (Flash_Write_Data (scripted [0, 0, 9]) 0x08010000 [1, 2, 3] 3).2.mem x
        = erasedMem (scripted [0, 0, 9]).mem (eraseRequest 0x08010000 3).1 (eraseRequest 0x08010000 3).2 x)) ∧
    ((∀ j, j < 3 → (scripted [0, 0, 9]).faults.getD (j + 1) 0 = 0) →
      (Flash_Write_Data (scripted [0, 0, 9]) 0x08010000 [1, 2, 3] 3).1 = 0 ∧
      (Flash_Write_Data (scripted [0, 0, 9]) 0x08010000 [1, 2, 3] 3).2.log
        = (scripted [0, 0, 9]).log ++ [HalOp.unlock, HalOp.erase (eraseRequest 0x08010000 3).1 (eraseRequest 0x08010000 3).2]
          ++ programRequests 0x08010000 [1, 2, 3] 0 3 ++ [HalOp.lock] ∧
      (∀ i, i < 3 → (Flash_Write_Data (scripted [0, 0, 9]) 0x08010000 [1, 2, 3] 3).2.mem (u32 (0x08010000 + i))
        = erasedMem (scripted [0, 0, 9]).mem (eraseRequest 0x08010000 3).1 (eraseRequest 0x08010000 3).2 (u32 (0x08010000 + i))
          &&& (([1, 2, 3] : List Nat).getD i 0 % 256)) ∧
      (∀ x, (∀ i, i < 3 → x ≠ u32 (0x08010000 + i)) → (Flash_Write_Data (scripted [0, 0, 9]) 0x08010000 [1, 2, 3] 3).2.mem x
        = erasedMem (scripted [0, 0, 9]).mem (eraseRequest 0x08010000 3).1 (eraseRequest 0x08010000 3).2 x))) :=
  ⟨by decide, program_failure_aborts (scripted [0, 0, 9]) 0x08010000 [1, 2, 3] 3 (by decide) (by decide)
    (by decide)⟩

/-- C25 (write frame): whatever the controller answers, a call `Flash_Write_Data(a,
v, n)` leaves unchanged every flash byte that lies neither in a sector of its
erase request nor in the programmed range `[a, a+n)`. -/
theorem write_frame (s : Ctrl) (a : Nat) (v : List Nat) (n x : Nat)
    (ha : a < 2 ^ 32) (hn : n ≤ 65535) (hx : 0x08000000 ≤ x ∧ x ≤ 0x0807FFFF)
    (hne : erasedBy (eraseRequest a n).1 (eraseRequest a n).2 x = false)
    (hout : ¬ (a ≤ x ∧ x < a + n)) :
    (Flash_Write_Data s a v n).2.mem x = s.mem x :=
  Flash_Write_Data_frame s a v n x ha hn hx hne hout

/-- Witness of C25: a byte of sector 5 survives a write in sector 4. -/
theorem write_frame_witness :
    (0x08010000 < 2 ^ 32 ∧ 1 ≤ 65535 ∧ (0x08000000 ≤ 0x08020010 ∧ 0x08020010 ≤ 0x0807FFFF) ∧
      erasedBy (eraseRequest 0x08010000 1).1 (eraseRequest 0x08010000 1).2 0x08020010 = false ∧
      ¬ (0x08010000 ≤ 0x08020010 ∧ 0x08020010 < 0x08010000 + 1)) ∧
    (Flash_Write_Data (corrupt blank 0x08020010 0x55) 0x08010000 [0xAA] 1).2.mem 0x08020010
      = (corrupt blank 0x08020010 0x55).mem 0x08020010 :=
  ⟨by decide, write_frame (corrupt blank 0x08020010 0x55) 0x08010000 [0xAA] 1 0x08020010
    (by decide) (by decide) (by decide) (by decide) (by decide)⟩

/-- C26 (erase count is well formed), evaluated at `a = 0x08004010`, `n = 0x3FEF`,
with `a` and `a + n = 0x08007FFF` in the flash: `StartSector` is `1`, `EndSector`
is `0`, below `StartSector`, and `NbSectors = (0 - 1) + 1` is `0` in `uint32_t`,
outside `1 ≤ NbSectors ≤ 8`. -/
theorem erase_count_zero :
    0x08000000 ≤ 0x08004010 ∧ 0x08004010 + 0x3FEF ≤ 0x0807FFFF ∧
    GetSector 0x08004010 = 1 ∧ GetSector (u32 (0x08004010 + 0x3FEF)) = 0 ∧
    eraseRequest 0x08004010 0x3FEF = (1, 0) := by
  decide

/-- C27 (replicas live in distinct sectors), evaluated at the zone address
`a = 0x08003FFF`: `a`, `a + 0x4000` and `a + 0x8000` are the last bytes of sectors
0, 1 and 2, and `GetSector` returns `0` for the three of them; the one-byte write
of the second replica requests the erase of three sectors from sector 0 on, which
covers the cells of the first and of the third replica. -/
theorem replica_sectors_coincide :
    inZone 0x08003FFF ∧
    GetSector 0x08003FFF = 0 ∧ GetSector (0x08003FFF + 0x4000) = 0 ∧
    GetSector (0x08003FFF + 0x8000) = 0 ∧
    sectorOf 0x08003FFF = some 0 ∧ sectorOf (0x08003FFF + 0x4000) = some 1 ∧
    sectorOf (0x08003FFF + 0x8000) = some 2 ∧
    eraseRequest (0x08003FFF + 0x4000) 1 = (0, 3) ∧
    erasedBy 0 3 0x08003FFF = true ∧ erasedBy 0 3 (0x08003FFF + 0x8000) = true := by
  decide

/-! ## The photo buffer, the frame length and the spreading factor -/

/-- C24 (photo write size) fails at `L = 65536`: the loop of `retrieveImage` is left
and the only call of `Flash_Write_Data` is at `PHOTO_ADDR` (here `0x08020000`),
but its `uint16_t` byte count is `0`, not `L`. -/
theorem photo_write_size_truncated :
    (retrieveImage (fun _ _ => 0) 0x08020000 65536 0 blank).map
      (fun r => r.2.2.calls.map (fun call => (call.1, call.2.2))) = some [(0x08020000, 0)] := by
  obtain ⟨c, _, h⟩ := retrieveImage_eq (fun _ _ => 0) 0x08020000 65536 0 blank (by decide)
    (by decide)
  rw [h]
  simp only [Option.map_some', Flash_Write_Data_calls]
  rfl

/-- C24 as amended: for every frame length `L ≤ 65535`, `retrieveImage` ends with a
single call of `Flash_Write_Data`, at `PHOTO_ADDR`, on the `L` bytes of the photo
buffer and with byte count `L`. -/
theorem photo_write_size (rx : Nat → Buf) (PHOTO_ADDR L framePointer : Nat) (s : Ctrl)
    (hL : L ≤ 65535) (hfp : framePointer < 65536) :
    ∃ c r, retrieveImage rx PHOTO_ADDR L framePointer s = some (c, r) ∧
      r.2.calls = s.calls ++ [(PHOTO_ADDR, (List.range L).map c.dataVect, L)] ∧
      ((List.range L).map c.dataVect).length = L := by
  obtain ⟨c, _, h⟩ := retrieveImage_eq rx PHOTO_ADDR L framePointer s (by omega) hfp
  refine ⟨c, _, h, ?_, by simp⟩
  have hu : u16 L = L := by unfold u16; omega
  rw [Flash_Write_Data_calls, hu]

/-- Witness of C24 as amended at `L = 300`. -/
theorem photo_write_size_witness :
    (300 ≤ 65535 ∧ 0 < 65536) ∧
    ∃ c r, retrieveImage (fun _ _ => 1) 0x08020000 300 0 blank = some (c, r) ∧
      r.2.calls = blank.calls ++ [(0x08020000, (List.range 300).map c.dataVect, 300)] ∧
      ((List.range 300).map c.dataVect).length = 300 :=
  ⟨by decide, photo_write_size (fun _ _ => 1) 0x08020000 300 0 blank (by decide) (by decide)⟩

/-- C28 (spreading-factor telecommand), evaluated at `info = 1`: the assignment
`uint8_t SF = 8` declares a new variable inside its block, the outer `SF` keeps
its indeterminate content, and the byte handed to `Write_Flash` is that content
(`0xEE` in one run, `0x11` in another), not `8`; only `info = 0` writes `7 + info`.
The same holds for `info` from `2` to `5`. -/
theorem SET_SF_writes_uninitialised_byte (s : Ctrl) (SF_ADDR : Nat) :
    process_telecommand_SET_SF s SF_ADDR 0 0xEE = Write_Flash s SF_ADDR [7] 1 ∧
    process_telecommand_SET_SF s SF_ADDR 1 0xEE = Write_Flash s SF_ADDR [0xEE] 1 ∧
    process_telecommand_SET_SF s SF_ADDR 1 0x11 = Write_Flash s SF_ADDR [0x11] 1 ∧
    (process_telecommand_SET_SF blank 0x0800C000 1 0xEE).calls = [(0x0800C000, [0xEE], 1)] ∧
    (process_telecommand_SET_SF blank 0x0800C000 1 0x11).calls = [(0x0800C000, [0x11], 1)] := by
  refine ⟨rfl, rfl, rfl, ?_, ?_⟩ <;> decide

/-- C29 (frame length decoding): when the command succeeds, `getFrameLength` returns
with `frameLength = dataBuffer[5]·2^24 + dataBuffer[6]·2^16 + dataBuffer[7]·2^8 +
dataBuffer[8]`, for every value of the four bytes. -/
theorem frame_length_big_endian (dataBuffer : Buf) (hb : ∀ i, dataBuffer i < 256)
    (hok : runCommand dataBuffer 0x34 9 = true) :
    getFrameLength dataBuffer
      = some (dataBuffer 5 * 2 ^ 24 + dataBuffer 6 * 2 ^ 16 + dataBuffer 7 * 2 ^ 8
          + dataBuffer 8) := by
  have h5 := hb 5
  have h6 := hb 6
  have h7 := hb 7
  have h8 := hb 8
  unfold getFrameLength
  rw [if_neg (fun c => c hok)]
  simp only
  have e1 := shl_or_byte (dataBuffer 5) (dataBuffer 6) (by omega) h6
  have e2 := shl_or_byte (dataBuffer 5 * 256 + dataBuffer 6) (dataBuffer 7) (by omega) h7
  have e3 := shl_or_byte ((dataBuffer 5 * 256 + dataBuffer 6) * 256 + dataBuffer 7)
    (dataBuffer 8) (by omega) h8
  have e4 : ((dataBuffer 5 * 256 + dataBuffer 6) * 256 + dataBuffer 7) * 256 + dataBuffer 8
      = dataBuffer 5 * 2 ^ 24 + dataBuffer 6 * 2 ^ 16 + dataBuffer 7 * 2 ^ 8 + dataBuffer 8 := by
    omega
  rw [e1, e2, e3, e4]

/-- Witness of C29 on the response `76 00 34 00 00 12 34 56 78`. -/
theorem frame_length_big_endian_witness :
    ((∀ i, (fun i => ([0x76, 0, 0x34, 0, 0, 0x12, 0x34, 0x56, 0x78] : List Nat).getD i 0) i < 256) ∧
      runCommand (fun i => ([0x76, 0, 0x34, 0, 0, 0x12, 0x34, 0x56, 0x78] : List Nat).getD i 0)
        0x34 9 = true) ∧
    getFrameLength (fun i => ([0x76, 0, 0x34, 0, 0, 0x12, 0x34, 0x56, 0x78] : List Nat).getD i 0)
      = some ((fun i => ([0x76, 0, 0x34, 0, 0, 0x12, 0x34, 0x56, 0x78] : List Nat).getD i 0) 5
            * 2 ^ 24
          + (fun i => ([0x76, 0, 0x34, 0, 0, 0x12, 0x34, 0x56, 0x78] : List Nat).getD i 0) 6
            * 2 ^ 16
          + (fun i => ([0x76, 0, 0x34, 0, 0, 0x12, 0x34, 0x56, 0x78] : List Nat).getD i 0) 7
            * 2 ^ 8
          + (fun i => ([0x76, 0, 0x34, 0, 0, 0x12, 0x34, 0x56, 0x78] : List Nat).getD i 0) 8) :=
  ⟨⟨getD_lt _ (by decide), by decide⟩,
    frame_length_big_endian (fun i => ([0x76, 0, 0x34, 0, 0, 0x12, 0x34, 0x56, 0x78] : List Nat).getD i 0)
      (getD_lt _ (by decide)) (by decide)⟩

/-- C30 (photo chunking loop) fails at `L = 65536` with `framePointer` initially `0`:
the loop is left with `frameLength = 0`, but `framePointer`, a `uint16_t`, is `0`
and not `L`. -/
theorem frame_pointer_wraps :
    (retrieveLoop 65536 (fun _ _ => 0) ⟨65536, 0, fun _ => 0, []⟩).map
      (fun c => (c.frameLength, c.framePointer)) = some (0, 0) := by
  obtain ⟨c, h, h1, h2, _⟩ := retrieveLoop_small (fun _ _ => 0) 65536 ⟨65536, 0, fun _ => 0, []⟩
    (Nat.le_refl _) (by decide) (by decide)
  simp only [Nat.zero_add, Nat.mod_self] at h2
  rw [h]
  show some (c.frameLength, c.framePointer) = some (0, 0)
  rw [h1, h2]

/-- C30 as amended: for every initial `frameLength` `L < 2^31` and `framePointer`
initially `0`, the loop of `retrieveImage` is left after `⌈L / 128⌉` iterations;
in each iteration `1 ≤ toRead ≤ 128` and `toRead` is at most the remaining
`frameLength`; on exit `frameLength = 0` and `framePointer = L mod 2^16`; and
every index `framePointer + i` written into the photo buffer is below `L`. -/
theorem photo_chunking_loop (rx : Nat → Buf) (L : Nat) (dataVect : Buf) (hL : L < 2 ^ 31) :
    ∃ c, retrieveLoop L rx ⟨L, 0, dataVect, []⟩ = some c ∧
      c.frameLength = 0 ∧ c.framePointer = L % 65536 ∧
      c.trace.length = (L + 127) / 128 ∧
      ∀ e ∈ c.trace, 1 ≤ e.2.2 ∧ e.2.2 ≤ 128 ∧ e.2.2 ≤ (e.1 : Int) ∧
        ∀ i : Nat, (i : Int) < e.2.2 → e.2.1 + i < L := by
  obtain ⟨c, h, h1, h2, T, t1, t2, t3⟩ := retrieveLoop_small rx L ⟨L, 0, dataVect, []⟩
    (Nat.le_refl _) hL (show 0 < 65536 by decide)
  simp only [List.nil_append, Nat.zero_add] at h2 t1 t3
  refine ⟨c, h, h1, h2, by rw [t1, t2], ?_⟩
  intro e he
  rw [t1] at he
  obtain ⟨q1, q2, q3, q4⟩ := t3 e he
  refine ⟨q1, q2, q3, ?_⟩
  intro i hi
  omega

/-- Witness of C30 as amended at `L = 300`. -/
theorem photo_chunking_loop_witness :
    300 < 2 ^ 31 ∧
    ∃ c, retrieveLoop 300 (fun _ _ => 1) ⟨300, 0, fun _ => 0, []⟩ = some c ∧
      c.frameLength = 0 ∧ c.framePointer = 300 % 65536 ∧
      c.trace.length = (300 + 127) / 128 ∧
      ∀ e ∈ c.trace, 1 ≤ e.2.2 ∧ e.2.2 ≤ 128 ∧ e.2.2 ≤ (e.1 : Int) ∧
        ∀ i : Nat, (i : Int) < e.2.2 → e.2.1 + i < 300 :=
  ⟨by decide, photo_chunking_loop (fun _ _ => 1) 300 (fun _ => 0) (by decide)⟩

end Flash
